import Mathlib

/-!
Verification model of the AHP cross-correlator INDI driver
(`indi-ahp-xc/indi_ahp_xc.cpp`).

The driver's numeric computations are carried out in C `double`s; this
development models them with exact rationals (`ℚ`), the idealized
semantics of that arithmetic.  The single irrational operation used by
the source, `sqrt` inside the reference-antenna ratio, is handled by an
exact rational decision procedure `ratioGtB` which is proved equivalent
to the real-number comparison (`ratioGtB_iff_real`).

3D vectors (antenna locations, the array phase center, baseline
vectors) are `V3 := ℚ × ℚ × ℚ`.

Entities modelled, with the source function each is translated from:
* `phaseCenter`      — `AHP_XC::Callback`, lines 296-321 (array center);
* `selectFarest`     — `AHP_XC::Callback`, lines 322-336 (reference antenna);
* `delayCompTick`    — `AHP_XC::Callback`, lines 292-365 (full delay
                       compensation for one ready packet);
* `appendRow` etc.   — `AHP_XC::Callback`, lines 396-421 (buffer growth);
* `Callback_step`    — the body of `AHP_XC::Callback`'s loop for one ready
                       packet, lines 192-442;
* `StartIntegration` — lines 683-693; `AbortIntegration` — lines 698-702;
* `CalcTimeLeft`     — lines 920-933;
* `serializeLoop`    — the per-buffer BLOB generation loops of the
                       finalize step, lines 209-255.

The geometric delay function (`baseline_delay` of libnova/INDI, and
`INDI::Correlator::baseline::getDelay`) is not part of this repository's
sources; it is modelled from the spec as the projection of a vector onto
the sky-direction unit vector (see `baseline_delay` below).
-/

namespace AhpXc

/-- 3D vector over ℚ (models a C `double[3]` / `INDI::Correlator::Baseline`). -/
abbrev V3 : Type := ℚ × ℚ × ℚ

/-- Euclidean dot product of two 3D vectors. -/
def dot (a b : V3) : ℚ := a.1 * b.1 + a.2.1 * b.2.1 + a.2.2 * b.2.2

/-- Squared Euclidean norm; the source computes
`sqrt(pow(x,2)+pow(y,2)+pow(z,2))` — we carry the square exactly. -/
def normSq (a : V3) : ℚ := dot a a

/-- Componentwise division of a vector by a scalar
(models `center_tmp[i] /= idx`, lines 316-318). -/
def divQ (v : V3) (q : ℚ) : V3 := (v.1 / q, v.2.1 / q, v.2.2 / q)

/-- Modelled from the spec: `baseline_delay(Altitude, Azimuth, v)` of the
external geometry library (not under the repository sources) is the
projection of the vector `v` onto the sky-direction unit vector; `dir`
stands for that unit vector, derived from (Altitude, Azimuth). -/
def baseline_delay (dir v : V3) : ℚ := dot dir v

/-! ### Exact comparison of `d₁/√q₁ > d₂/√q₂`

The reference-antenna scan (lines 331-334) compares ratios
`delay/sqrt(normSq)`.  `ratioGtB` decides that real comparison using
only rational arithmetic; `ratioGtB_iff_real` proves it correct.
`q = 0` follows the exact-real convention `d/0 = 0`; in the source a
zero norm can only arise together with a zero numerator (the delay is a
projection of the same zero vector), where IEEE `0.0/0.0 = NaN` also
compares false, so the two semantics agree on reachable inputs. -/

/-- Decides `d₁ / √q₁ > d₂ / √q₂` over ℚ inputs (`q₁, q₂ ≥ 0`). -/
def ratioGtB (d1 q1 d2 q2 : ℚ) : Bool :=
  if q1 = 0 then
    if q2 = 0 then false else decide (d2 < 0)
  else
    if q2 = 0 then decide (0 < d1)
    else
      if 0 < d1 then
        if 0 < d2 then decide (d2 ^ 2 * q1 < d1 ^ 2 * q2) else true
      else
        if d1 = 0 then decide (d2 < 0)
        else
          if d2 < 0 then decide (d1 ^ 2 * q2 < d2 ^ 2 * q1) else false

/-! ### The array phase center (`Callback`, lines 296-321)

The source walks the lines with `first = -1; idx = 1`; the first enabled
line becomes `first`, every further enabled line `x` adds
`pos[x] - pos[first]` to `center_tmp` and bumps `idx`; finally
`center_tmp /= idx; center_tmp += pos[first]`.  With no enabled line,
`first` stays -1 and the source dereferences `lineLocationNP[-1]`: that
out-of-bounds access is modelled as `none`. -/

/-- Total lookup in the line-enable array (`lineEnableSP[x].sp[0].s == ISS_ON`). -/
def getB (l : List Bool) (x : ℕ) : Bool := l.getD x false

/-- Total lookup in a per-line vector array (`lineLocationNP[x]`, `delay[x]`). -/
def getV (l : List V3) (x : ℕ) : V3 := l.getD x 0

/-- Total lookup in a per-line scalar array. -/
def getQ (l : List ℚ) (x : ℕ) : ℚ := l.getD x 0

/-- Loop state of the phase-center scan: `first` (`-1` ↦ `none`), the
accumulating `center_tmp` and the divisor `idx`. -/
structure CAcc where
  first : Option ℕ
  acc : V3
  idx : ℕ
deriving DecidableEq

/-- One iteration of the center scan (`Callback` lines 299-315). -/
def centerStep (enabled : List Bool) (pos : List V3) (a : CAcc) (x : ℕ) : CAcc :=
  if getB enabled x then
    match a.first with
    | some f => ⟨a.first, a.acc + (getV pos x - getV pos f), a.idx + 1⟩
    | none => ⟨some x, a.acc, a.idx⟩
  else a

/-- The full scan over lines `0..n-1` starting from `first = -1`,
`center_tmp = 0`, `idx = 1`. -/
def centerScan (enabled : List Bool) (pos : List V3) (n : ℕ) : CAcc :=
  (List.range n).foldl (centerStep enabled pos) ⟨none, 0, 1⟩

/-- The computed phase center (`center_tmp` after lines 316-321), `none`
when no line is enabled (the source's out-of-bounds read of
`lineLocationNP[-1]`). -/
def phaseCenter (enabled : List Bool) (pos : List V3) (n : ℕ) : Option V3 :=
  match (centerScan enabled pos n).first with
  | none => none
  | some f =>
      some (divQ (centerScan enabled pos n).acc ((centerScan enabled pos n).idx : ℚ)
        + getV pos f)

/-- Indices of the enabled lines below `n`. -/
def enabledIdx (enabled : List Bool) (n : ℕ) : List ℕ :=
  (List.range n).filter (fun x => getB enabled x)

/-- Number of enabled lines below `n`. -/
def countEnabled (enabled : List Bool) (n : ℕ) : ℕ := (enabledIdx enabled n).length

/-- Sum of the positions of the enabled lines below `n`. -/
def sumEnabled (enabled : List Bool) (pos : List V3) (n : ℕ) : V3 :=
  ((enabledIdx enabled n).map (fun x => getV pos x)).sum

/-- Mean position of the enabled lines (the claimed phase center). -/
def meanEnabled (enabled : List Bool) (pos : List V3) (n : ℕ) : V3 :=
  divQ (sumEnabled enabled pos n) ((countEnabled enabled n : ℕ) : ℚ)

/-! ### Reference-antenna selection (`Callback`, lines 322-336)

For every enabled line the source computes
`delay_tmp = baseline_delay(Alt, Az, center[x]) / sqrt(normSq center[x])`
and keeps the strictly larger of `delay_tmp` and the running
`delay_max` (initially `0`, with `farest` initially `0`).  The running
maximum is carried here as the exact pair `(dmax, qmax)` standing for
`dmax / √qmax` (initially `(0, 1)`, i.e. the value `0`), compared by
`ratioGtB`. -/

/-- Loop state of the reference scan: `farest` and the running
`delay_max` represented exactly as `dmax / √qmax`. -/
structure FAcc where
  farest : ℕ
  dmax : ℚ
  qmax : ℚ
deriving DecidableEq

/-- The numerator `baseline_delay(Alt, Az, center[x])` of line `x`'s ratio. -/
def lineDelayNum (pos : List V3) (c dir : V3) (x : ℕ) : ℚ :=
  baseline_delay dir (getV pos x - c)

/-- The squared denominator `normSq center[x]` of line `x`'s ratio. -/
def lineNormSq (pos : List V3) (c : V3) (x : ℕ) : ℚ :=
  normSq (getV pos x - c)

/-- One iteration of the reference scan (`Callback` lines 324-336). -/
def farestStep (enabled : List Bool) (pos : List V3) (c dir : V3) (a : FAcc) (x : ℕ) :
    FAcc :=
  if getB enabled x then
    if ratioGtB (lineDelayNum pos c dir x) (lineNormSq pos c x) a.dmax a.qmax then
      ⟨x, lineDelayNum pos c dir x, lineNormSq pos c x⟩
    else a
  else a

/-- The full reference scan (`farest = 0`, `delay_max = 0` initially). -/
def selectFarest (enabled : List Bool) (pos : List V3) (c dir : V3) (n : ℕ) : FAcc :=
  (List.range n).foldl (farestStep enabled pos c dir) ⟨0, 0, 1⟩

/-! ### Per-pair delay assignment (`Callback`, lines 337-365)

`delay[farest] = 0` and channel commands for `farest` are issued
unconditionally; then for every ordered pair `x < y` with both lines
enabled, `d = fabs(baselines[idx]->getDelay(Alt, Az))` is converted to
clock ticks, clamped, and assigned to the non-reference side whenever
the pair involves `farest`.  `INDI::Correlator::baseline::getDelay` is
not under the repository sources; modelled from the spec as the
projection of the baseline vector `pos[y] - pos[x]` onto the direction
unit vector (the baseline vectors are maintained this way at
`ISNewNumber`, lines 722-737). -/

/-- Hardware constants reported by the correlator. -/
structure XCConsts where
  nlines : ℕ
  delaysize : ℕ
  frequency : ℚ
  lightspeed : ℚ
  lagAuto : ℕ
  lagCross : ℕ
deriving DecidableEq

/-- `ahp_xc_get_nbaselines()`: one baseline per unordered line pair. -/
def nbaselines (cs : XCConsts) : ℕ := cs.nlines * (cs.nlines - 1) / 2

/-- A hardware channel command: `ahp_xc_set_channel_auto`/`_cross`
with its delay-tick argument. -/
inductive XCmd where
  | auto (channel : ℕ) (ticks : ℕ)
  | cross (channel : ℕ) (ticks : ℕ)
deriving DecidableEq

/-- `(unsigned int)(d * ahp_xc_get_frequency() / LIGHTSPEED)` (line 348):
truncation of a nonnegative double to an unsigned integer. -/
def delayClocks (cs : XCConsts) (d : ℚ) : ℕ := ⌊d * cs.frequency / cs.lightspeed⌋₊

/-- The clamp of line 349:
`dc > 0 ? (dc < delaysize ? dc : delaysize - 1) : 0`. -/
def clampClocks (cs : XCConsts) (dc : ℕ) : ℕ :=
  if 0 < dc then (if dc < cs.delaysize then dc else cs.delaysize - 1) else 0

/-- The per-pair delay magnitude `fabs(baselines[idx]->getDelay(Alt, Az))`
(line 347), with the baseline vector `pos[y] - pos[x]`. -/
def pairDelay (pos : List V3) (dir : V3) (x y : ℕ) : ℚ :=
  |baseline_delay dir (getV pos y - getV pos x)|

/-- All ordered pairs `x < y < n` in the iteration order of the nested
loops (lines 341-343), which is also the baseline index order. -/
def pairList (n : ℕ) : List (ℕ × ℕ) :=
  (List.range n).flatMap (fun x => ((List.range n).filter (fun y => x < y)).map
    (fun y => (x, y)))

/-- One iteration of the pair-assignment loop (`Callback` lines 343-364),
acting on the running `(delay array, issued commands)`. -/
def pairAssignStep (cs : XCConsts) (enabled : List Bool) (pos : List V3) (dir : V3)
    (farest : ℕ) (st : List ℚ × List XCmd) (p : ℕ × ℕ) : List ℚ × List XCmd :=
  if getB enabled p.1 && getB enabled p.2 then
    let d := pairDelay pos dir p.1 p.2
    let dc := clampClocks cs (delayClocks cs d)
    let st1 := if p.2 = farest then
        (st.1.set p.1 d, st.2 ++ [XCmd.auto p.1 0, XCmd.cross p.1 dc])
      else st
    if p.1 = farest then
      (st1.1.set p.2 d, st1.2 ++ [XCmd.auto p.2 0, XCmd.cross p.2 dc])
    else st1
  else st

/-- Result of one full delay-compensation pass. -/
structure DelayTickResult where
  delays : List ℚ
  cmds : List XCmd
  farest : ℕ
deriving DecidableEq

/-- One full delay-compensation pass of `Callback` (lines 292-365) for a
ready packet while integrating with time left: phase center, reference
selection, unconditional zeroing of the reference channel, and the pair
loop.  `none` models the out-of-bounds `lineLocationNP[-1]` access taken
when no line is enabled. -/
def delayCompTick (cs : XCConsts) (enabled : List Bool) (pos : List V3) (dir : V3)
    (delays : List ℚ) : Option DelayTickResult :=
  match phaseCenter enabled pos cs.nlines with
  | none => none
  | some c =>
      let fa := selectFarest enabled pos c dir cs.nlines
      let st0 : List ℚ × List XCmd :=
        (delays.set fa.farest 0, [XCmd.auto fa.farest 0, XCmd.cross fa.farest 0])
      let st := (pairList cs.nlines).foldl
        (pairAssignStep cs enabled pos dir fa.farest) st0
      some ⟨st.1, st.2, fa.farest⟩

/-- Every command appended by the pair loop keeps clock counts within
`[0, delaysize-1]`. -/
def CrossBounded (cs : XCConsts) (cmds : List XCmd) : Prop :=
  ∀ ch t, XCmd.cross ch t ∈ cmds → t ≤ cs.delaysize - 1

/-! ### Correlation packets and DSP streams

A `dsp_stream` used by the driver is a 2D buffer: `sizes[0]` is the lag
width fixed at `Handshake` (lines 1087, 1120), `sizes[1]` the number of
rows.  It is modelled as its width plus the list of rows.  The growth
code (lines 396-421) sets `pos = len - sizes[0]`, bumps `sizes[1]` and
`len`, reallocates, and writes the packet's lag values at `pos`: the
write lands in the last already-allocated row, and the `realloc` adds
one more row (uninitialized; modelled as zeros, its content never read
as data before being overwritten by the next tick's write). -/

/-- One correlation sample of a packet's lag vector
(`ahp_xc_correlation`: `magnitude` and `counts`). -/
structure XCorrSample where
  magnitude : ℚ
  counts : ℚ
deriving DecidableEq

/-- One hardware correlation packet (`ahp_xc_packet`): per-line pulse
counts, per-line autocorrelation lag vectors, per-baseline
crosscorrelation lag vectors. -/
structure XCPacket where
  counts : List ℚ
  autocorrelations : List (List XCorrSample)
  crosscorrelations : List (List XCorrSample)
deriving DecidableEq

/-- The center-lag sample `correlations[lag_size / 2]` of a lag vector. -/
def centerSample (l : List XCorrSample) : XCorrSample := l.getD (l.length / 2) ⟨0, 0⟩

/-- A `dsp_stream`: fixed lag width and the list of rows. -/
structure DspStream where
  width : ℕ
  rows : List (List ℚ)
deriving DecidableEq

/-- A freshly allocated stream of width `w`
(`dsp_stream_new` + `add_dim(w)` + `add_dim(1)` + `alloc_buffer`):
one zeroed row. -/
def dsp_stream_init (w : ℕ) : DspStream := ⟨w, [List.replicate w 0]⟩

/-- The reset applied at finalize (lines 248-250, 276-278):
`dsp_stream_set_dim(str, 1, 1)` + realloc + zero fill. -/
def resetStream (b : DspStream) : DspStream := dsp_stream_init b.width

/-- One growth step of the accumulation code (lines 400-406 / 413-419):
write the packet row into the last allocated row and allocate one more. -/
def appendRow (s : DspStream) (row : List ℚ) : DspStream :=
  ⟨s.width, s.rows.dropLast ++ [row, List.replicate s.width 0]⟩

/-- The magnitudes of a lag vector (`correlations[i].magnitude`). -/
def magRow (l : List XCorrSample) : List ℚ := l.map (fun s => s.magnitude)

/-- The autocorrelation accumulation loop (lines 396-408): guarded by
`nlines > 0 && autocorrelator_lagsize > 1`, it appends to the buffer of
EVERY line `x < nlines` (no per-line enable check). -/
def accumAuto (cs : XCConsts) (bufs : List DspStream) (pkt : XCPacket) :
    List DspStream :=
  if 0 < cs.nlines ∧ 1 < cs.lagAuto then
    bufs.mapIdx (fun x b => appendRow b (magRow (pkt.autocorrelations.getD x [])))
  else bufs

/-- The crosscorrelation accumulation loop (lines 409-421): guarded by
`nbaselines > 0 && crosscorrelator_lagsize > 1`, it appends to the
buffer of EVERY baseline (no enable check). -/
def accumCross (cs : XCConsts) (bufs : List DspStream) (pkt : XCPacket) :
    List DspStream :=
  if 0 < nbaselines cs ∧ 1 < cs.lagCross then
    bufs.mapIdx (fun x b => appendRow b (magRow (pkt.crosscorrelations.getD x [])))
  else bufs

/-! ### Integration-cycle state and the Callback loop body -/

/-- The driver state touched by the integration/correlation engine. -/
structure XCState where
  inIntegration : Bool
  integrationRequest : ℚ
  expStart : ℚ
  delays : List ℚ
  autocorrelations_str : List DspStream
  crosscorrelations_str : List DspStream
  totalcounts : List ℚ
  totalcorrelations : List (ℚ × ℚ)
deriving DecidableEq

/-- `AHP_XC::CalcTimeLeft` (lines 920-933): requested duration minus the
wall-clock time since `ExpStart`. -/
def CalcTimeLeft (s : XCState) (now : ℚ) : ℚ :=
  s.integrationRequest - (now - s.expStart)

/-- `AHP_XC::StartIntegration` (lines 683-693). -/
def StartIntegration (s : XCState) (now duration : ℚ) : Bool × XCState :=
  if s.inIntegration then (false, s)
  else (true, { s with
    integrationRequest := duration
    expStart := now
    inIntegration := true })

/-- `AHP_XC::AbortIntegration` (lines 698-702). -/
def AbortIntegration (s : XCState) : Bool × XCState :=
  (true, { s with inIntegration := false })

/-- The statistics accumulation run on every ready packet
(lines 425-441): per enabled line, `totalcounts[x] += packet->counts[x]`. -/
def updCounts (enabled : List Bool) (tc : List ℚ) (pkt : XCPacket) (n : ℕ) :
    List ℚ :=
  (List.range n).foldl (fun l x =>
    if getB enabled x then l.set x (getQ l x + pkt.counts.getD x 0) else l) tc

/-- Per enabled baseline, accumulate the center-lag `(counts, magnitude)`
into `totalcorrelations[idx]` (lines 430-440). -/
def updCorrTotals (enabled : List Bool) (tcorr : List (ℚ × ℚ)) (pkt : XCPacket)
    (n : ℕ) : List (ℚ × ℚ) :=
  (pairList n).enum.foldl (fun l e =>
    if getB enabled e.2.1 && getB enabled e.2.2 then
      let s := centerSample (pkt.crosscorrelations.getD e.1 [])
      l.set e.1 ((l.getD e.1 (0, 0)).1 + s.counts, (l.getD e.1 (0, 0)).2 + s.magnitude)
    else l) tcorr

/-- Apply the always-run statistics tail of the loop body to the state. -/
def applyTotals (cs : XCConsts) (enabled : List Bool) (s : XCState) (pkt : XCPacket) :
    XCState :=
  { s with totalcounts := updCounts enabled s.totalcounts pkt cs.nlines,
           totalcorrelations := updCorrTotals enabled s.totalcorrelations pkt cs.nlines }

/-- The crosscorrelation finalize loop (lines 261-279).  Note the source
indexes `crosscorrelations_str[x]` by the OUTER line index `x`, not by
the running baseline index `idx`: per pair `(x, y)` it serializes and
then resets buffer `x`.  Returns `(buffers after, emitted contents in
loop order)`. -/
def crossFinalize (cs : XCConsts) (bufs : List DspStream) :
    List DspStream × List DspStream :=
  (pairList cs.nlines).foldl (fun st p =>
    (st.1.set p.1 (resetStream (st.1.getD p.1 (dsp_stream_init 0))),
     st.2 ++ [st.1.getD p.1 (dsp_stream_init 0)])) (bufs, [])

/-- Per-tick inputs of the loop body: the wall clock, the sky-direction
unit vector (recomputed each pass at lines 292-294 from libnova, outside
these sources), and the received packet. -/
structure TickIn where
  now : ℚ
  dir : V3
  pkt : XCPacket
deriving DecidableEq

/-- Observable effects of one loop pass: issued channel commands, and
the buffer contents handed to `createFITS` when a finalize ran. -/
structure TickOut where
  cmds : List XCmd
  autoEmitted : Option (List DspStream)
  crossEmitted : Option (List DspStream)
deriving DecidableEq

/-- The body of `AHP_XC::Callback`'s loop for one ready packet
(lines 192-442).  Structure: compute `timeleft`; only when
`InIntegration`, either finalize (`timeleft ≤ 0`: serialize BLOBs, reset
buffers, clear the flag) or run delay compensation plus buffer
accumulation; then in all cases run the statistics tail.  `none` models
the out-of-bounds access of the delay-compensation pass when no line is
enabled.  The preview-plot fill (lines 366-395) and the plot BLOBs
(lines 209-231) act on state outside this model and are not modelled. -/
def Callback_step (cs : XCConsts) (enabled : List Bool) (pos : List V3)
    (inp : TickIn) (s : XCState) : Option (XCState × TickOut) :=
  if s.inIntegration then
    if CalcTimeLeft s inp.now ≤ 0 then
      let autoRes := if 0 < cs.nlines ∧ 1 < cs.lagAuto
        then (some s.autocorrelations_str, s.autocorrelations_str.map resetStream)
        else (none, s.autocorrelations_str)
      let crossRes := if 0 < nbaselines cs ∧ 1 < cs.lagCross
        then ((some (crossFinalize cs s.crosscorrelations_str).2),
              (crossFinalize cs s.crosscorrelations_str).1)
        else (none, s.crosscorrelations_str)
      let s1 := { s with
        inIntegration := false
        autocorrelations_str := autoRes.2
        crosscorrelations_str := crossRes.2 }
      some (applyTotals cs enabled s1 inp.pkt, ⟨[], autoRes.1, crossRes.1⟩)
    else
      match delayCompTick cs enabled pos inp.dir s.delays with
      | none => none
      | some r =>
          let s1 := { s with
            delays := r.delays
            autocorrelations_str := accumAuto cs s.autocorrelations_str inp.pkt
            crosscorrelations_str := accumCross cs s.crosscorrelations_str inp.pkt }
          some (applyTotals cs enabled s1 inp.pkt, ⟨r.cmds, none, none⟩)
  else some (applyTotals cs enabled s inp.pkt, ⟨[], none, none⟩)

/-- Iterated loop passes: feed a list of per-tick inputs through
`Callback_step`, in order. -/
def runSteps (cs : XCConsts) (enabled : List Bool) (pos : List V3) :
    List TickIn → XCState → Option XCState
  | [], s => some s
  | inp :: rest, s =>
      match Callback_step cs enabled pos inp s with
      | none => none
      | some (s', _) => runSteps cs enabled pos rest s'

/-- The per-buffer BLOB serialization loop of the finalize step
(lines 209-227 for the plots, 235-251 for the autocorrelations): for
each buffer, run the encoder (`createFITS`); on success overwrite that
slot, on failure (null) leave the slot untouched; then reset the buffer;
always continue with the next buffer.  The encoder is the opaque
external FITS writer, passed as a function. -/
def serializeLoop (enc : DspStream → Option (List ℚ)) :
    List (Option (List ℚ)) → List DspStream → List (Option (List ℚ)) × List DspStream
  | o :: os, b :: bs =>
      ((match enc b with
        | some bl => some bl
        | none => o) :: (serializeLoop enc os bs).1,
       resetStream b :: (serializeLoop enc os bs).2)
  | os, [] => (os, [])
  | [], b :: bs => ([], (b :: bs).map resetStream)

/-! ### Sample configurations used for concrete instantiations -/

/-- A 2-line correlator: 4 delay steps, clock 2, unit light speed,
lag sizes 2. -/
def cs2 : XCConsts := ⟨2, 4, 2, 1, 2, 2⟩

/-- A 3-line correlator with the same timing constants. -/
def cs3 : XCConsts := ⟨3, 4, 2, 1, 2, 2⟩

/-- Both lines enabled. -/
def en2 : List Bool := [true, true]

/-- Line 0 disabled, lines 1 and 2 enabled. -/
def en3 : List Bool := [false, true, true]

/-- Two antennas two meters apart on the x axis. -/
def pos2 : List V3 := [(0, 0, 0), (2, 0, 0)]

/-- Three antennas: 0 and 1 coincident, 2 two meters away on the x axis. -/
def pos3 : List V3 := [(0, 0, 0), (0, 0, 0), (2, 0, 0)]

/-- Sky direction along the x axis (horizon-aligned with the array). -/
def dirX : V3 := (1, 0, 0)

/-- Sky direction along the z axis (zenith, perpendicular to the array). -/
def dirZ : V3 := (0, 0, 1)

/-- A small correlation packet for a 2-line / 1-baseline correlator. -/
def pkt2 : XCPacket :=
  ⟨[1, 1], [[⟨1, 1⟩, ⟨1, 1⟩], [⟨1, 1⟩, ⟨1, 1⟩]], [[⟨1, 1⟩, ⟨1, 1⟩, ⟨1, 1⟩]]⟩

/-- An idle 2-line driver state (no integration running). -/
def sIdle2 : XCState :=
  ⟨false, 5, 0, [5, 5], [dsp_stream_init 2, dsp_stream_init 2], [dsp_stream_init 3],
   [0, 0], [(0, 0)]⟩

/-- The same state mid-integration (request 5, started at 0). -/
def sInt2 : XCState :=
  ⟨true, 5, 0, [5, 5], [dsp_stream_init 2, dsp_stream_init 2], [dsp_stream_init 3],
   [0, 0], [(0, 0)]⟩

/-- The autocorrelation buffers allocated at `Handshake` (lines
1115-1123): one stream of width `lagAuto` per hardware line. -/
def initAutos (cs : XCConsts) : List DspStream :=
  List.replicate cs.nlines (dsp_stream_init cs.lagAuto)

/-- The crosscorrelation buffers allocated at `Handshake` (lines
1082-1090): one stream of width `2*lagCross - 1` per baseline. -/
def initCrosses (cs : XCConsts) : List DspStream :=
  List.replicate (nbaselines cs) (dsp_stream_init (2 * cs.lagCross - 1))

/-- `K` accumulation ticks (the buffer-growth part of the loop body,
lines 396-421) applied to freshly allocated buffers, fed packet
`pkts k` on tick `k`. -/
def iterAccum (cs : XCConsts) (pkts : ℕ → XCPacket) : ℕ → List DspStream × List DspStream
  | 0 => (initAutos cs, initCrosses cs)
  | k + 1 =>
      (accumAuto cs (iterAccum cs pkts k).1 (pkts k),
       accumCross cs (iterAccum cs pkts k).2 (pkts k))

/-- A 2-line packet for buffer-growth instantiations (lag width 3 auto,
3 cross). -/
def pkt4 : XCPacket :=
  ⟨[1, 1], [[⟨1, 1⟩, ⟨2, 1⟩, ⟨1, 1⟩], [⟨1, 1⟩, ⟨1, 1⟩, ⟨1, 1⟩]],
   [[⟨1, 1⟩, ⟨1, 1⟩, ⟨1, 1⟩]]⟩

/-- A 2-line correlator with autocorrelator lag size 3. -/
def cs4 : XCConsts := ⟨2, 4, 2, 1, 3, 2⟩

/-- Is a command a cross-channel delay command for channel `ch`? -/
def isCrossFor (ch : ℕ) : XCmd → Bool
  | XCmd.cross c _ => c == ch
  | _ => false

/-- A 1-line correlator. -/
def cs1 : XCConsts := ⟨1, 4, 2, 1, 2, 2⟩

/-- A mid-integration 1-line state whose single autocorrelation buffer
holds one data row [1, 2] plus the pre-allocated row. -/
def sAb : XCState := ⟨true, 5, 0, [5], [⟨2, [[1, 2], [0, 0]]⟩], [], [0], []⟩

/-! ### Theorems -/

theorem dot_nonneg_self (a : V3) : 0 ≤ normSq a := by
  unfold normSq dot
  nlinarith [sq_nonneg a.1, sq_nonneg a.2.1, sq_nonneg a.2.2]

theorem divQ_eq_smul (v : V3) (q : ℚ) : divQ v q = q⁻¹ • v := by
  unfold divQ
  refine Prod.ext ?_ (Prod.ext ?_ ?_) <;> simp [div_eq_inv_mul]

/-- The real-valued ratio `d / √q` that a `(d, q)` pair stands for. -/
noncomputable def ratioVal (d q : ℚ) : ℝ := (d : ℝ) / Real.sqrt (q : ℝ)

theorem ratioVal_of_q_zero (d : ℚ) : ratioVal d 0 = 0 := by
  simp [ratioVal]

theorem ratioVal_pos_aux (d q : ℚ) (hd : 0 < d) (hq : 0 < q) : 0 < ratioVal d q := by
  have hq' : (0:ℝ) < (q:ℝ) := by exact_mod_cast hq
  have hd' : (0:ℝ) < (d:ℝ) := by exact_mod_cast hd
  exact div_pos hd' (Real.sqrt_pos.2 hq')

theorem ratioVal_neg_aux (d q : ℚ) (hd : d < 0) (hq : 0 < q) : ratioVal d q < 0 := by
  have hq' : (0:ℝ) < (q:ℝ) := by exact_mod_cast hq
  have hd' : (d:ℝ) < 0 := by exact_mod_cast hd
  exact div_neg_of_neg_of_pos hd' (Real.sqrt_pos.2 hq')

theorem pos_div_sqrt_lt_iff (a b p q : ℝ) (ha : 0 < a) (hb : 0 < b)
    (hp : 0 < p) (hq : 0 < q) :
    b / Real.sqrt q < a / Real.sqrt p ↔ b ^ 2 * p < a ^ 2 * q := by
  rw [div_lt_div_iff₀ (Real.sqrt_pos.2 hq) (Real.sqrt_pos.2 hp)]
  constructor
  · intro h
    have h2 : (b * Real.sqrt p) ^ 2 < (a * Real.sqrt q) ^ 2 := by
      have h0 : 0 ≤ b * Real.sqrt p := mul_nonneg hb.le (Real.sqrt_nonneg _)
      exact pow_lt_pow_left₀ h h0 two_ne_zero
    rw [mul_pow, mul_pow, Real.sq_sqrt hp.le, Real.sq_sqrt hq.le] at h2
    exact h2
  · intro h
    have h2 : (b * Real.sqrt p) ^ 2 < (a * Real.sqrt q) ^ 2 := by
      rw [mul_pow, mul_pow, Real.sq_sqrt hp.le, Real.sq_sqrt hq.le]
      exact h
    exact lt_of_pow_lt_pow_left₀ 2 (mul_nonneg ha.le (Real.sqrt_nonneg _)) h2

theorem ratioVal_zero_num (q : ℚ) : ratioVal 0 q = 0 := by
  simp [ratioVal]

theorem ratioVal_nonpos (d q : ℚ) (hd : d ≤ 0) (hq : 0 ≤ q) : ratioVal d q ≤ 0 := by
  rcases eq_or_lt_of_le hq with hq0 | hqpos
  · rw [← hq0, ratioVal_of_q_zero]
  · rcases eq_or_lt_of_le hd with hd0 | hdneg
    · rw [hd0, ratioVal_zero_num]
    · exact (ratioVal_neg_aux d q hdneg hqpos).le

theorem ratioVal_nonneg (d q : ℚ) (hd : 0 ≤ d) : 0 ≤ ratioVal d q := by
  unfold ratioVal
  have hd' : (0:ℝ) ≤ (d:ℝ) := by exact_mod_cast hd
  exact div_nonneg hd' (Real.sqrt_nonneg _)

theorem ratioVal_neg_iff (d q : ℚ) (hq : 0 < q) : ratioVal d q < 0 ↔ d < 0 := by
  constructor
  · intro h
    by_contra hge
    exact absurd h (not_lt.2 (ratioVal_nonneg d q (not_lt.1 hge)))
  · intro h
    exact ratioVal_neg_aux d q h hq

theorem ratioVal_pos_iff (d q : ℚ) (hq : 0 < q) : 0 < ratioVal d q ↔ 0 < d := by
  constructor
  · intro h
    by_contra hge
    exact absurd h (not_lt.2 (ratioVal_nonpos d q (not_lt.1 hge) hq.le))
  · intro h
    exact ratioVal_pos_aux d q h hq

/-- Correctness of `ratioGtB` against the real comparison. -/
theorem ratioGtB_iff_real (d1 q1 d2 q2 : ℚ) (h1 : 0 ≤ q1) (h2 : 0 ≤ q2) :
    ratioGtB d1 q1 d2 q2 = true ↔ ratioVal d2 q2 < ratioVal d1 q1 := by
  by_cases e1 : q1 = 0
  · subst e1
    rw [ratioVal_of_q_zero]
    by_cases e2 : q2 = 0
    · subst e2
      rw [ratioVal_of_q_zero]
      simp [ratioGtB]
    · have hq2' : 0 < q2 := lt_of_le_of_ne h2 (Ne.symm e2)
      have hb : ratioGtB d1 0 d2 q2 = decide (d2 < 0) := by
        simp [ratioGtB, e2]
      rw [hb, decide_eq_true_eq, ratioVal_neg_iff d2 q2 hq2']
  · have hq1' : 0 < q1 := lt_of_le_of_ne h1 (Ne.symm e1)
    have hq1r : (0:ℝ) < (q1:ℝ) := by exact_mod_cast hq1'
    by_cases e2 : q2 = 0
    · subst e2
      rw [ratioVal_of_q_zero]
      have hb : ratioGtB d1 q1 d2 0 = decide (0 < d1) := by
        simp [ratioGtB, e1]
      rw [hb, decide_eq_true_eq, ratioVal_pos_iff d1 q1 hq1']
    · have hq2' : 0 < q2 := lt_of_le_of_ne h2 (Ne.symm e2)
      have hq2r : (0:ℝ) < (q2:ℝ) := by exact_mod_cast hq2'
      by_cases hd1 : 0 < d1
      · have hd1r : (0:ℝ) < (d1:ℝ) := by exact_mod_cast hd1
        by_cases hd2 : 0 < d2
        · have hd2r : (0:ℝ) < (d2:ℝ) := by exact_mod_cast hd2
          have hb : ratioGtB d1 q1 d2 q2 = decide (d2 ^ 2 * q1 < d1 ^ 2 * q2) := by
            simp [ratioGtB, e1, e2, hd1, hd2]
          rw [hb, decide_eq_true_eq, ratioVal, ratioVal,
            pos_div_sqrt_lt_iff (d1:ℝ) (d2:ℝ) (q1:ℝ) (q2:ℝ) hd1r hd2r hq1r hq2r]
          constructor
          · intro h
            exact_mod_cast h
          · intro h
            exact_mod_cast h
        · have hb : ratioGtB d1 q1 d2 q2 = true := by
            simp [ratioGtB, e1, e2, hd1, hd2]
          rw [hb]
          have hval1 : 0 < ratioVal d1 q1 := ratioVal_pos_aux d1 q1 hd1 hq1'
          have hval2 : ratioVal d2 q2 ≤ 0 := ratioVal_nonpos d2 q2 (not_lt.1 hd2) h2
          simp only [true_iff]
          exact lt_of_le_of_lt hval2 hval1
      · by_cases hz1 : d1 = 0
        · subst hz1
          have hb : ratioGtB 0 q1 d2 q2 = decide (d2 < 0) := by
            simp [ratioGtB, e1, e2]
          rw [hb, decide_eq_true_eq, ratioVal_zero_num,
            ratioVal_neg_iff d2 q2 hq2']
        · have hn1 : d1 < 0 := lt_of_le_of_ne (not_lt.1 hd1) hz1
          have hn1r : (d1:ℝ) < 0 := by exact_mod_cast hn1
          by_cases hd2 : d2 < 0
          · have hd2r : (d2:ℝ) < 0 := by exact_mod_cast hd2
            have hb : ratioGtB d1 q1 d2 q2 = decide (d1 ^ 2 * q2 < d2 ^ 2 * q1) := by
              simp [ratioGtB, e1, e2, hd1, hz1, hd2]
            rw [hb, decide_eq_true_eq]
            have key : (ratioVal d2 q2 < ratioVal d1 q1) ↔
                ((-d1 : ℚ) : ℝ) / Real.sqrt (q1:ℝ) < ((-d2 : ℚ) : ℝ) / Real.sqrt (q2:ℝ) := by
              unfold ratioVal
              push_cast
              rw [neg_div, neg_div, neg_lt_neg_iff]
            rw [key, pos_div_sqrt_lt_iff ((-d2 : ℚ):ℝ) ((-d1 : ℚ):ℝ) (q2:ℝ) (q1:ℝ)
              (by push_cast; linarith) (by push_cast; linarith) hq2r hq1r]
            constructor
            · intro h
              have hr : ((d1:ℝ)) ^ 2 * (q2:ℝ) < ((d2:ℝ)) ^ 2 * (q1:ℝ) := by
                exact_mod_cast h
              push_cast
              nlinarith [hr]
            · intro h
              push_cast at h
              have hr : ((d1:ℝ)) ^ 2 * (q2:ℝ) < ((d2:ℝ)) ^ 2 * (q1:ℝ) := by
                nlinarith [h]
              exact_mod_cast hr
          · have hb : ratioGtB d1 q1 d2 q2 = false := by
              simp [ratioGtB, e1, e2, hd1, hz1, hd2]
            rw [hb]
            have hval1 : ratioVal d1 q1 < 0 := ratioVal_neg_aux d1 q1 hn1 hq1'
            have hval2 : 0 ≤ ratioVal d2 q2 := ratioVal_nonneg d2 q2 (not_lt.1 hd2)
            constructor
            · intro h
              exact absurd h (by simp)
            · intro h
              exact absurd h (not_lt.2 (le_of_lt (lt_of_lt_of_le hval1 hval2)))

theorem enabledIdx_succ (enabled : List Bool) (n : ℕ) :
    enabledIdx enabled (n + 1) =
      enabledIdx enabled n ++ (if getB enabled n then [n] else []) := by
  unfold enabledIdx
  rw [List.range_succ, List.filter_append]
  by_cases h : getB enabled n
  · simp [h]
  · simp [h]

/-- Invariant of the phase-center scan: after scanning lines `0..n-1`,
either nothing was enabled and the accumulator is untouched, or `first`
is the least enabled index, `idx` counts the enabled lines, and `acc`
holds `Σ_{enabled x} (pos x - pos first)`. -/
theorem centerScan_spec (enabled : List Bool) (pos : List V3) (n : ℕ) :
    ((centerScan enabled pos n) = ⟨none, 0, 1⟩ ∧ countEnabled enabled n = 0) ∨
    (∃ f, (centerScan enabled pos n).first = some f ∧ f < n ∧
      getB enabled f = true ∧
      (centerScan enabled pos n).idx = countEnabled enabled n ∧
      (centerScan enabled pos n).acc =
        sumEnabled enabled pos n - (countEnabled enabled n : ℚ) • getV pos f) := by
  induction n with
  | zero =>
    left
    constructor
    · rfl
    · rfl
  | succ n ih =>
    have hstep : centerScan enabled pos (n + 1) =
        centerStep enabled pos (centerScan enabled pos n) n := by
      unfold centerScan
      rw [List.range_succ, List.foldl_append]
      rfl
    have hcnt : countEnabled enabled (n + 1) =
        countEnabled enabled n + (if getB enabled n then 1 else 0) := by
      unfold countEnabled
      rw [enabledIdx_succ, List.length_append]
      by_cases h : getB enabled n
      · simp [h]
      · simp [h]
    have hsum : sumEnabled enabled pos (n + 1) =
        sumEnabled enabled pos n + (if getB enabled n then getV pos n else 0) := by
      unfold sumEnabled
      rw [enabledIdx_succ, List.map_append, List.sum_append]
      by_cases h : getB enabled n
      · simp [h]
      · simp [h]
    by_cases hen : getB enabled n
    · rcases ih with ⟨hnone, hcnt0⟩ | ⟨f, hf, hflt, hfen, hidx, hacc⟩
      · right
        refine ⟨n, ?_, n.lt_succ_self, hen, ?_, ?_⟩
        · rw [hstep, hnone]
          simp [centerStep, hen]
        · rw [hstep, hnone, hcnt, hcnt0]
          simp [centerStep, hen]
        · rw [hstep, hnone, hcnt, hsum, hcnt0]
          have hs0 : sumEnabled enabled pos n = 0 := by
            unfold sumEnabled
            unfold countEnabled at hcnt0
            rw [List.length_eq_zero] at hcnt0
            rw [hcnt0]
            rfl
          simp [centerStep, hen, hs0]
      · right
        refine ⟨f, ?_, Nat.lt_succ_of_lt hflt, hfen, ?_, ?_⟩
        · rw [hstep]
          simp [centerStep, hen, hf]
        · rw [hstep, hcnt]
          simp only [centerStep, hen, if_pos, hf]
          simp [hidx]
        · rw [hstep, hcnt, hsum]
          simp only [centerStep, hen, if_pos, hf, if_true]
          rw [hacc]
          push_cast
          rw [add_smul, one_smul]
          abel
    · rcases ih with ⟨hnone, hcnt0⟩ | ⟨f, hf, hflt, hfen, hidx, hacc⟩
      · left
        constructor
        · rw [hstep, hnone]
          simp [centerStep, hen]
        · rw [hcnt, hcnt0]
          simp [hen]
      · right
        refine ⟨f, ?_, Nat.lt_succ_of_lt hflt, hfen, ?_, ?_⟩
        · rw [hstep]
          simp [centerStep, hen, hf]
        · rw [hstep, hcnt]
          simp [centerStep, hen, hidx]
        · rw [hstep, hcnt, hsum]
          simp [centerStep, hen, hacc]

/-- The phase center, when defined, is the mean of the enabled positions. -/
theorem phaseCenter_eq_mean (enabled : List Bool) (pos : List V3) (n : ℕ) (c : V3)
    (hc : phaseCenter enabled pos n = some c) :
    c = meanEnabled enabled pos n := by
  rcases centerScan_spec enabled pos n with ⟨hnone, _⟩ | ⟨f, hf, hflt, hfen, hidx, hacc⟩
  · unfold phaseCenter at hc
    rw [hnone] at hc
    simp at hc
  · unfold phaseCenter at hc
    rw [hf] at hc
    simp only [Option.some.injEq] at hc
    have hfmem : f ∈ enabledIdx enabled n := by
      unfold enabledIdx
      rw [List.mem_filter]
      exact ⟨List.mem_range.2 hflt, hfen⟩
    have hkpos : 0 < countEnabled enabled n := List.length_pos_of_mem hfmem
    have hk0 : ((countEnabled enabled n : ℕ) : ℚ) ≠ 0 := by
      exact_mod_cast Nat.pos_iff_ne_zero.1 hkpos
    rw [← hc, hacc, hidx]
    unfold meanEnabled
    rw [divQ_eq_smul, divQ_eq_smul, smul_sub, inv_smul_smul₀ hk0]
    abel

theorem getB_true_lt (l : List Bool) (x : ℕ) (h : getB l x = true) : x < l.length := by
  by_contra hge
  push_neg at hge
  unfold getB at h
  rw [List.getD_eq_default _ _ hge] at h
  exact Bool.false_ne_true h

/-- Invariant of the reference scan: the accumulator is either untouched
(value `0/√1 = 0`) or holds an enabled line's exact ratio, that ratio is
positive, and no scanned enabled line has a strictly larger real ratio. -/
theorem selectFarest_spec (enabled : List Bool) (pos : List V3) (c dir : V3) (n : ℕ) :
    (selectFarest enabled pos c dir n = ⟨0, 0, 1⟩ ∨
      ((selectFarest enabled pos c dir n).farest < n ∧
       getB enabled (selectFarest enabled pos c dir n).farest = true ∧
       (selectFarest enabled pos c dir n).dmax =
         lineDelayNum pos c dir (selectFarest enabled pos c dir n).farest ∧
       (selectFarest enabled pos c dir n).qmax =
         lineNormSq pos c (selectFarest enabled pos c dir n).farest ∧
       0 < ratioVal (selectFarest enabled pos c dir n).dmax
         (selectFarest enabled pos c dir n).qmax)) ∧
    0 ≤ (selectFarest enabled pos c dir n).qmax ∧
    0 ≤ ratioVal (selectFarest enabled pos c dir n).dmax
      (selectFarest enabled pos c dir n).qmax ∧
    (∀ x, x < n → getB enabled x = true →
      ratioVal (lineDelayNum pos c dir x) (lineNormSq pos c x) ≤
        ratioVal (selectFarest enabled pos c dir n).dmax
          (selectFarest enabled pos c dir n).qmax) := by
  induction n with
  | zero =>
    have h0 : selectFarest enabled pos c dir 0 = ⟨0, 0, 1⟩ := rfl
    refine ⟨Or.inl rfl, ?_, ?_, ?_⟩
    · rw [h0]
      norm_num
    · rw [h0]
      show (0:ℝ) ≤ ratioVal 0 1
      rw [ratioVal_zero_num]
    · intro x hx
      exact absurd hx (Nat.not_lt_zero x)
  | succ n ih =>
    obtain ⟨hdisj, hq, hv, hmax⟩ := ih
    have hstep : selectFarest enabled pos c dir (n + 1) =
        farestStep enabled pos c dir (selectFarest enabled pos c dir n) n := by
      unfold selectFarest
      rw [List.range_succ, List.foldl_append]
      rfl
    by_cases hen : getB enabled n
    · by_cases hgt : ratioGtB (lineDelayNum pos c dir n) (lineNormSq pos c n)
        (selectFarest enabled pos c dir n).dmax (selectFarest enabled pos c dir n).qmax
      · have hnew : selectFarest enabled pos c dir (n + 1) =
            ⟨n, lineDelayNum pos c dir n, lineNormSq pos c n⟩ := by
          rw [hstep]
          simp [farestStep, hen, hgt]
        have hbridge : ratioVal (selectFarest enabled pos c dir n).dmax
            (selectFarest enabled pos c dir n).qmax <
            ratioVal (lineDelayNum pos c dir n) (lineNormSq pos c n) :=
          (ratioGtB_iff_real _ _ _ _ (dot_nonneg_self _) hq).1 hgt
        have hposval : 0 < ratioVal (lineDelayNum pos c dir n) (lineNormSq pos c n) :=
          lt_of_le_of_lt hv hbridge
        refine ⟨Or.inr ?_, ?_, ?_, ?_⟩
        · rw [hnew]
          exact ⟨n.lt_succ_self, hen, rfl, rfl, hposval⟩
        · rw [hnew]
          exact dot_nonneg_self _
        · rw [hnew]
          exact hposval.le
        · intro x hx hxen
          rw [hnew]
          rcases Nat.lt_succ_iff_lt_or_eq.1 hx with hlt | heq
          · exact le_of_lt (lt_of_le_of_lt (hmax x hlt hxen) hbridge)
          · subst heq
            exact le_refl _
      · have hsame : selectFarest enabled pos c dir (n + 1) =
            selectFarest enabled pos c dir n := by
          rw [hstep]
          simp [farestStep, hen, hgt]
        have hnsq : (0:ℚ) ≤ lineNormSq pos c n := dot_nonneg_self _
        have hnle : ratioVal (lineDelayNum pos c dir n) (lineNormSq pos c n) ≤
            ratioVal (selectFarest enabled pos c dir n).dmax
              (selectFarest enabled pos c dir n).qmax := by
          by_contra hlt
          push_neg at hlt
          exact hgt ((ratioGtB_iff_real _ _ _ _ hnsq hq).2 hlt)
        rw [hsame]
        refine ⟨?_, hq, hv, ?_⟩
        · rcases hdisj with h0 | ⟨hlt, hen2, hd, hq2, hv2⟩
          · exact Or.inl h0
          · exact Or.inr ⟨Nat.lt_succ_of_lt hlt, hen2, hd, hq2, hv2⟩
        · intro x hx hxen
          rcases Nat.lt_succ_iff_lt_or_eq.1 hx with hlt | heq
          · exact hmax x hlt hxen
          · subst heq
            exact hnle
    · have hsame : selectFarest enabled pos c dir (n + 1) =
          selectFarest enabled pos c dir n := by
        rw [hstep]
        simp [farestStep, hen]
      rw [hsame]
      refine ⟨?_, hq, hv, ?_⟩
      · rcases hdisj with h0 | ⟨hlt, hen2, hd, hq2, hv2⟩
        · exact Or.inl h0
        · exact Or.inr ⟨Nat.lt_succ_of_lt hlt, hen2, hd, hq2, hv2⟩
      · intro x hx hxen
        rcases Nat.lt_succ_iff_lt_or_eq.1 hx with hlt | heq
        · exact hmax x hlt hxen
        · subst heq
          exact absurd hxen hen

/-! ### Lemmas about the pair-assignment loop -/

theorem dot_sub_swap (dir a b : V3) : dot dir (a - b) = -dot dir (b - a) := by
  unfold dot
  have h1 : (a - b).1 = a.1 - b.1 := rfl
  have h2 : (a - b).2.1 = a.2.1 - b.2.1 := rfl
  have h3 : (a - b).2.2 = a.2.2 - b.2.2 := rfl
  have g1 : (b - a).1 = b.1 - a.1 := rfl
  have g2 : (b - a).2.1 = b.2.1 - a.2.1 := rfl
  have g3 : (b - a).2.2 = b.2.2 - a.2.2 := rfl
  rw [h1, h2, h3, g1, g2, g3]
  ring

theorem pairDelay_comm (pos : List V3) (dir : V3) (x y : ℕ) :
    pairDelay pos dir x y = pairDelay pos dir y x := by
  unfold pairDelay baseline_delay
  rw [dot_sub_swap]
  exact abs_neg _

theorem clampClocks_le (cs : XCConsts) (dc : ℕ) (hds : 1 ≤ cs.delaysize) :
    clampClocks cs dc ≤ cs.delaysize - 1 := by
  unfold clampClocks
  by_cases h0 : 0 < dc
  · by_cases hlt : dc < cs.delaysize
    · simp only [h0, hlt, if_pos]
      omega
    · simp [h0, hlt]
  · simp only [h0, if_neg, if_false]
    omega

theorem pairAssignStep_cmds_extends (cs : XCConsts) (enabled : List Bool)
    (pos : List V3) (dir : V3) (farest : ℕ) (st : List ℚ × List XCmd) (p : ℕ × ℕ) :
    ∃ t, (pairAssignStep cs enabled pos dir farest st p).2 = st.2 ++ t := by
  simp only [pairAssignStep]
  split_ifs
  · refine ⟨[XCmd.auto p.1 0,
      XCmd.cross p.1 (clampClocks cs (delayClocks cs (pairDelay pos dir p.1 p.2))),
      XCmd.auto p.2 0,
      XCmd.cross p.2 (clampClocks cs (delayClocks cs (pairDelay pos dir p.1 p.2)))], ?_⟩
    show (_ ++ _) ++ _ = _
    rw [List.append_assoc]
    rfl
  · exact ⟨[XCmd.auto p.2 0,
      XCmd.cross p.2 (clampClocks cs (delayClocks cs (pairDelay pos dir p.1 p.2)))], rfl⟩
  · exact ⟨[XCmd.auto p.1 0,
      XCmd.cross p.1 (clampClocks cs (delayClocks cs (pairDelay pos dir p.1 p.2)))], rfl⟩
  · exact ⟨[], by simp⟩
  · exact ⟨[], by simp⟩

theorem pairAssignStep_mem_cases (cs : XCConsts) (enabled : List Bool) (pos : List V3)
    (dir : V3) (farest : ℕ) (st : List ℚ × List XCmd) (p : ℕ × ℕ) (cmd : XCmd)
    (h : cmd ∈ (pairAssignStep cs enabled pos dir farest st p).2) :
    cmd ∈ st.2 ∨ cmd = XCmd.auto p.1 0 ∨ cmd = XCmd.auto p.2 0 ∨
    cmd = XCmd.cross p.1 (clampClocks cs (delayClocks cs (pairDelay pos dir p.1 p.2))) ∨
    cmd = XCmd.cross p.2 (clampClocks cs (delayClocks cs (pairDelay pos dir p.1 p.2))) := by
  simp only [pairAssignStep] at h
  split_ifs at h <;>
    first
    | (simp only [List.mem_append, List.mem_cons, List.not_mem_nil, or_false] at h
       tauto)
    | tauto

theorem pairFold_cmds_extends (cs : XCConsts) (enabled : List Bool) (pos : List V3)
    (dir : V3) (farest : ℕ) (l : List (ℕ × ℕ)) (st : List ℚ × List XCmd) :
    ∃ t, (l.foldl (pairAssignStep cs enabled pos dir farest) st).2 = st.2 ++ t := by
  induction l generalizing st with
  | nil =>
    exact ⟨[], by simp⟩
  | cons p l ih =>
    rw [List.foldl_cons]
    obtain ⟨t1, ht1⟩ := pairAssignStep_cmds_extends cs enabled pos dir farest st p
    obtain ⟨t2, ht2⟩ := ih (pairAssignStep cs enabled pos dir farest st p)
    exact ⟨t1 ++ t2, by rw [ht2, ht1, List.append_assoc]⟩

theorem pairFold_mem_cmds (cs : XCConsts) (enabled : List Bool) (pos : List V3)
    (dir : V3) (farest : ℕ) (l : List (ℕ × ℕ)) (st : List ℚ × List XCmd) (cmd : XCmd)
    (h : cmd ∈ st.2) :
    cmd ∈ (l.foldl (pairAssignStep cs enabled pos dir farest) st).2 := by
  obtain ⟨t, ht⟩ := pairFold_cmds_extends cs enabled pos dir farest l st
  rw [ht]
  exact List.mem_append_left t h

theorem pairList_mem (n : ℕ) (p : ℕ × ℕ) :
    p ∈ pairList n ↔ p.1 < p.2 ∧ p.2 < n := by
  unfold pairList
  simp only [List.mem_flatMap, List.mem_map, List.mem_filter, List.mem_range,
    decide_eq_true_eq]
  constructor
  · rintro ⟨x, hx, y, ⟨hy, hxy⟩, rfl⟩
    exact ⟨hxy, hy⟩
  · rintro ⟨h1, h2⟩
    exact ⟨p.1, lt_trans h1 h2, p.2, ⟨h2, h1⟩, rfl⟩

theorem pairAssignStep_bounded (cs : XCConsts) (enabled : List Bool) (pos : List V3)
    (dir : V3) (farest : ℕ) (st : List ℚ × List XCmd) (p : ℕ × ℕ)
    (hds : 1 ≤ cs.delaysize) (hb : CrossBounded cs st.2) :
    CrossBounded cs (pairAssignStep cs enabled pos dir farest st p).2 := by
  intro ch t hmem
  rcases pairAssignStep_mem_cases cs enabled pos dir farest st p _ hmem with
    hold | h | h | h | h
  · exact hb ch t hold
  · exact absurd h (by simp)
  · exact absurd h (by simp)
  · rw [XCmd.cross.injEq] at h
    rw [h.2]
    exact clampClocks_le cs _ hds
  · rw [XCmd.cross.injEq] at h
    rw [h.2]
    exact clampClocks_le cs _ hds

theorem pairFold_bounded (cs : XCConsts) (enabled : List Bool) (pos : List V3)
    (dir : V3) (farest : ℕ) (l : List (ℕ × ℕ)) (st : List ℚ × List XCmd)
    (hds : 1 ≤ cs.delaysize) (hb : CrossBounded cs st.2) :
    CrossBounded cs ((l.foldl (pairAssignStep cs enabled pos dir farest) st)).2 := by
  induction l generalizing st with
  | nil => exact hb
  | cons p l ih =>
    rw [List.foldl_cons]
    exact ih _ (pairAssignStep_bounded cs enabled pos dir farest st p hds hb)

/-- If a processed pair has the reference on its `y` side, the `x` side
receives its cross-channel command (`Callback` lines 350-355). -/
theorem pairFold_covers_y (cs : XCConsts) (enabled : List Bool) (pos : List V3)
    (dir : V3) (f : ℕ) (l : List (ℕ × ℕ)) (st : List ℚ × List XCmd) (p : ℕ × ℕ)
    (hp : p ∈ l) (hx : getB enabled p.1 = true) (hy : getB enabled p.2 = true)
    (h2 : p.2 = f) (h1 : p.1 ≠ f) :
    XCmd.cross p.1 (clampClocks cs (delayClocks cs (pairDelay pos dir p.1 p.2))) ∈
      (l.foldl (pairAssignStep cs enabled pos dir f) st).2 := by
  obtain ⟨l1, l2, rfl⟩ := List.append_of_mem hp
  rw [List.foldl_append, List.foldl_cons]
  apply pairFold_mem_cmds
  have hyf : getB enabled f = true := by
    rw [← h2]
    exact hy
  simp only [pairAssignStep, hx, hy, hyf, h2, if_pos, Bool.and_self, if_true, h1,
    if_neg, if_false]
  simp

/-- If a processed pair has the reference on its `x` side, the `y` side
receives its cross-channel command (`Callback` lines 356-361). -/
theorem pairFold_covers_x (cs : XCConsts) (enabled : List Bool) (pos : List V3)
    (dir : V3) (f : ℕ) (l : List (ℕ × ℕ)) (st : List ℚ × List XCmd) (p : ℕ × ℕ)
    (hp : p ∈ l) (hx : getB enabled p.1 = true) (hy : getB enabled p.2 = true)
    (h1 : p.1 = f) (h2 : p.2 ≠ f) :
    XCmd.cross p.2 (clampClocks cs (delayClocks cs (pairDelay pos dir p.1 p.2))) ∈
      (l.foldl (pairAssignStep cs enabled pos dir f) st).2 := by
  obtain ⟨l1, l2, rfl⟩ := List.append_of_mem hp
  rw [List.foldl_append, List.foldl_cons]
  apply pairFold_mem_cmds
  have hxf : getB enabled f = true := by
    rw [← h1]
    exact hx
  simp only [pairAssignStep, hx, hy, hxf, h1, if_pos, Bool.and_self, if_true, h2,
    if_neg, if_false]
  simp

/-- Unfolding of a successful `delayCompTick`. -/
theorem delayCompTick_unfold (cs : XCConsts) (enabled : List Bool) (pos : List V3)
    (dir : V3) (delays : List ℚ) (c : V3) (r : DelayTickResult)
    (hc : phaseCenter enabled pos cs.nlines = some c)
    (hr : delayCompTick cs enabled pos dir delays = some r) :
    r.farest = (selectFarest enabled pos c dir cs.nlines).farest ∧
    r.cmds = ((pairList cs.nlines).foldl (pairAssignStep cs enabled pos dir r.farest)
      (delays.set r.farest 0,
        [XCmd.auto r.farest 0, XCmd.cross r.farest 0])).2 ∧
    r.delays = ((pairList cs.nlines).foldl (pairAssignStep cs enabled pos dir r.farest)
      (delays.set r.farest 0,
        [XCmd.auto r.farest 0, XCmd.cross r.farest 0])).1 := by
  unfold delayCompTick at hr
  rw [hc] at hr
  simp only [Option.some.injEq] at hr
  subst hr
  exact ⟨rfl, rfl, rfl⟩

/-! ### Elementary lemmas about buffers and the loop body -/

theorem getD_mapIdx {α β : Type} (l : List α) (f : ℕ → α → β) (i : ℕ)
    (h : i < l.length) (d : β) (e : α) :
    (l.mapIdx f).getD i d = f i (l.getD i e) := by
  have h' : i < (l.mapIdx f).length := by
    rw [List.length_mapIdx]
    exact h
  rw [List.getD_eq_get _ d h', List.getD_eq_get _ e h, List.get_mapIdx]

theorem appendRow_rows (b : DspStream) (row : List ℚ) :
    (appendRow b row).rows = b.rows.dropLast ++ [row, List.replicate b.width 0] := rfl

theorem appendRow_rows_length (b : DspStream) (row : List ℚ) (hb : b.rows ≠ []) :
    (appendRow b row).rows.length = b.rows.length + 1 := by
  rw [appendRow_rows, List.length_append, List.length_dropLast]
  have : 0 < b.rows.length := List.length_pos.2 hb
  simp
  omega

theorem appendRow_dropLast (b : DspStream) (row : List ℚ) :
    (appendRow b row).rows.dropLast = b.rows.dropLast ++ [row] := by
  rw [appendRow_rows]
  rw [List.dropLast_append_of_ne_nil _ (by simp)]
  rfl

theorem appendRow_rows_ne_nil (b : DspStream) (row : List ℚ) :
    (appendRow b row).rows ≠ [] := by
  rw [appendRow_rows]
  simp

theorem accumAuto_length (cs : XCConsts) (bufs : List DspStream) (pkt : XCPacket) :
    (accumAuto cs bufs pkt).length = bufs.length := by
  unfold accumAuto
  split_ifs
  · rw [List.length_mapIdx]
  · rfl

theorem accumCross_length (cs : XCConsts) (bufs : List DspStream) (pkt : XCPacket) :
    (accumCross cs bufs pkt).length = bufs.length := by
  unfold accumCross
  split_ifs
  · rw [List.length_mapIdx]
  · rfl

theorem accumAuto_getD (cs : XCConsts) (bufs : List DspStream) (pkt : XCPacket)
    (x : ℕ) (hg : 0 < cs.nlines ∧ 1 < cs.lagAuto) (hx : x < bufs.length) :
    (accumAuto cs bufs pkt).getD x (dsp_stream_init 0) =
      appendRow (bufs.getD x (dsp_stream_init 0))
        (magRow (pkt.autocorrelations.getD x [])) := by
  unfold accumAuto
  rw [if_pos hg]
  exact getD_mapIdx bufs _ x hx _ _

theorem accumCross_getD (cs : XCConsts) (bufs : List DspStream) (pkt : XCPacket)
    (x : ℕ) (hg : 0 < nbaselines cs ∧ 1 < cs.lagCross) (hx : x < bufs.length) :
    (accumCross cs bufs pkt).getD x (dsp_stream_init 0) =
      appendRow (bufs.getD x (dsp_stream_init 0))
        (magRow (pkt.crosscorrelations.getD x [])) := by
  unfold accumCross
  rw [if_pos hg]
  exact getD_mapIdx bufs _ x hx _ _

theorem accumAuto_mem (cs : XCConsts) (bufs : List DspStream) (pkt : XCPacket)
    (hg : 0 < cs.nlines ∧ 1 < cs.lagAuto) (b : DspStream)
    (hb : b ∈ accumAuto cs bufs pkt) :
    ∃ b0 row, b0 ∈ bufs ∧ b = appendRow b0 row := by
  unfold accumAuto at hb
  rw [if_pos hg] at hb
  rw [List.mapIdx_eq_ofFn, List.mem_ofFn] at hb
  obtain ⟨i, hi⟩ := hb
  exact ⟨bufs.get i, _, List.get_mem bufs i.1 i.2, hi.symm⟩

theorem accumCross_mem (cs : XCConsts) (bufs : List DspStream) (pkt : XCPacket)
    (hg : 0 < nbaselines cs ∧ 1 < cs.lagCross) (b : DspStream)
    (hb : b ∈ accumCross cs bufs pkt) :
    ∃ b0 row, b0 ∈ bufs ∧ b = appendRow b0 row := by
  unfold accumCross at hb
  rw [if_pos hg] at hb
  rw [List.mapIdx_eq_ofFn, List.mem_ofFn] at hb
  obtain ⟨i, hi⟩ := hb
  exact ⟨bufs.get i, _, List.get_mem bufs i.1 i.2, hi.symm⟩

theorem delayCompTick_isSome (cs : XCConsts) (enabled : List Bool) (pos : List V3)
    (dir : V3) (delays : List ℚ) (c : V3)
    (hc : phaseCenter enabled pos cs.nlines = some c) :
    ∃ r, delayCompTick cs enabled pos dir delays = some r := by
  unfold delayCompTick
  rw [hc]
  exact ⟨_, rfl⟩

theorem Callback_step_idle (cs : XCConsts) (enabled : List Bool) (pos : List V3)
    (inp : TickIn) (s : XCState) (h : s.inIntegration = false) :
    Callback_step cs enabled pos inp s =
      some (applyTotals cs enabled s inp.pkt, ⟨[], none, none⟩) := by
  unfold Callback_step
  rw [h]
  rfl

theorem Callback_step_accum (cs : XCConsts) (enabled : List Bool) (pos : List V3)
    (inp : TickIn) (s : XCState) (r : DelayTickResult)
    (hInt : s.inIntegration = true) (ht : 0 < CalcTimeLeft s inp.now)
    (hd : delayCompTick cs enabled pos inp.dir s.delays = some r) :
    Callback_step cs enabled pos inp s =
      some (applyTotals cs enabled { s with
          delays := r.delays
          autocorrelations_str := accumAuto cs s.autocorrelations_str inp.pkt
          crosscorrelations_str := accumCross cs s.crosscorrelations_str inp.pkt }
        inp.pkt, ⟨r.cmds, none, none⟩) := by
  unfold Callback_step
  rw [hInt, if_pos rfl, if_neg (not_le.2 ht), hd]

theorem Callback_step_finalize (cs : XCConsts) (enabled : List Bool) (pos : List V3)
    (inp : TickIn) (s : XCState)
    (hInt : s.inIntegration = true) (ht : CalcTimeLeft s inp.now ≤ 0)
    (hgA : 0 < cs.nlines ∧ 1 < cs.lagAuto) :
    Callback_step cs enabled pos inp s =
      some (applyTotals cs enabled { s with
          inIntegration := false
          autocorrelations_str := s.autocorrelations_str.map resetStream
          crosscorrelations_str :=
            (if 0 < nbaselines cs ∧ 1 < cs.lagCross
             then (crossFinalize cs s.crosscorrelations_str).1
             else s.crosscorrelations_str) }
        inp.pkt,
        ⟨[], some s.autocorrelations_str,
          (if 0 < nbaselines cs ∧ 1 < cs.lagCross
           then some (crossFinalize cs s.crosscorrelations_str).2
           else none)⟩) := by
  unfold Callback_step
  rw [hInt, if_pos rfl, if_pos ht, if_pos hgA]
  split_ifs <;> rfl

theorem serializeLoop_getD (enc : DspStream → Option (List ℚ))
    (slots : List (Option (List ℚ))) (bufs : List DspStream) (j : ℕ)
    (hlen : slots.length = bufs.length) (hj : j < bufs.length) :
    (serializeLoop enc slots bufs).1.getD j none =
      (match enc (bufs.getD j (dsp_stream_init 0)) with
       | some bl => some bl
       | none => slots.getD j none) := by
  induction bufs generalizing slots j with
  | nil => exact absurd hj (Nat.not_lt_zero j)
  | cons b bs ih =>
    cases slots with
    | nil =>
      rw [List.length_nil, List.length_cons] at hlen
      exact absurd hlen.symm (Nat.succ_ne_zero _)
    | cons o os =>
      rw [List.length_cons, List.length_cons] at hlen
      cases j with
      | zero =>
        show ((match enc b with
          | some bl => some bl
          | none => o) :: (serializeLoop enc os bs).1).getD 0 none = _
        rw [List.getD_cons_zero]
        rfl
      | succ j =>
        show ((match enc b with
          | some bl => some bl
          | none => o) :: (serializeLoop enc os bs).1).getD (j + 1) none = _
        rw [List.getD_cons_succ]
        rw [ih os j (Nat.succ_injective hlen) (Nat.lt_of_succ_lt_succ hj)]
        rfl

/-! ### Claim theorems -/

/-- C6: for every duration, calling `StartIntegration` while an
integration is already active returns false and leaves the existing
cycle's state unchanged: requested duration, start timestamp (hence
elapsed/remaining time via `CalcTimeLeft`), and the integrating flag are
all unaffected. -/
theorem C6_theorem (s : XCState) (now duration : ℚ) (h : s.inIntegration = true) :
    (StartIntegration s now duration).1 = false ∧
    (StartIntegration s now duration).2 = s ∧
    (StartIntegration s now duration).2.integrationRequest = s.integrationRequest ∧
    (StartIntegration s now duration).2.expStart = s.expStart ∧
    (StartIntegration s now duration).2.inIntegration = true ∧
    ∀ t, CalcTimeLeft (StartIntegration s now duration).2 t = CalcTimeLeft s t := by
  unfold StartIntegration
  rw [h]
  exact ⟨rfl, rfl, rfl, rfl, h, fun t => rfl⟩

/-- Concrete instantiation of `C6_theorem`: a state that is integrating
(request 5 started at 0, with some buffer content) rejects a second
start request unchanged. -/
theorem C6_witness :
    ((⟨true, 5, 0, [1, 2], [dsp_stream_init 4], [], [0, 0], [(0, 0)]⟩ :
        XCState).inIntegration = true) ∧
    ((StartIntegration ⟨true, 5, 0, [1, 2], [dsp_stream_init 4], [], [0, 0], [(0, 0)]⟩
        7 3).1 = false ∧
     (StartIntegration ⟨true, 5, 0, [1, 2], [dsp_stream_init 4], [], [0, 0], [(0, 0)]⟩
        7 3).2 = ⟨true, 5, 0, [1, 2], [dsp_stream_init 4], [], [0, 0], [(0, 0)]⟩) :=
  ⟨rfl,
   (C6_theorem ⟨true, 5, 0, [1, 2], [dsp_stream_init 4], [], [0, 0], [(0, 0)]⟩
     7 3 rfl).1,
   ((C6_theorem ⟨true, 5, 0, [1, 2], [dsp_stream_init 4], [], [0, 0], [(0, 0)]⟩
     7 3 rfl).2).1⟩

/-- C8: in the finalize serialization loop, an encoder failure (null
return) on one buffer leaves that buffer's output slot at its previous
value, while every other buffer whose encoding succeeds still gets its
slot written: one failure never aborts the loop. -/
theorem C8_theorem (enc : DspStream → Option (List ℚ))
    (slots : List (Option (List ℚ))) (bufs : List DspStream) (i : ℕ)
    (hlen : slots.length = bufs.length) (hi : i < bufs.length)
    (hfail : enc (bufs.getD i (dsp_stream_init 0)) = none) :
    (serializeLoop enc slots bufs).1.getD i none = slots.getD i none ∧
    ∀ j bl, j < bufs.length → enc (bufs.getD j (dsp_stream_init 0)) = some bl →
      (serializeLoop enc slots bufs).1.getD j none = some bl := by
  constructor
  · rw [serializeLoop_getD enc slots bufs i hlen hi, hfail]
  · intro j bl hj henc
    rw [serializeLoop_getD enc slots bufs j hlen hj, henc]

/-- Concrete instantiation of `C8_theorem`: with an encoder failing on
width-0 buffers, buffer 0 fails (slot stays unset) and buffer 1 is still
serialized. -/
theorem C8_witness :
    (([none, none] : List (Option (List ℚ))).length =
      ([⟨0, [[]]⟩, ⟨1, [[7]]⟩] : List DspStream).length) ∧
    (0 < ([⟨0, [[]]⟩, ⟨1, [[7]]⟩] : List DspStream).length) ∧
    ((fun b : DspStream => if b.width = 0 then none else some (List.replicate b.width 0))
      (([⟨0, [[]]⟩, ⟨1, [[7]]⟩] : List DspStream).getD 0 (dsp_stream_init 0)) = none) ∧
    ((serializeLoop
        (fun b : DspStream => if b.width = 0 then none else some (List.replicate b.width 0))
        [none, none] [⟨0, [[]]⟩, ⟨1, [[7]]⟩]).1.getD 0 none = none ∧
     ∀ j bl, j < ([⟨0, [[]]⟩, ⟨1, [[7]]⟩] : List DspStream).length →
       (fun b : DspStream => if b.width = 0 then none else some (List.replicate b.width 0))
         (([⟨0, [[]]⟩, ⟨1, [[7]]⟩] : List DspStream).getD j (dsp_stream_init 0)) = some bl →
       (serializeLoop
          (fun b : DspStream => if b.width = 0 then none else some (List.replicate b.width 0))
          [none, none] [⟨0, [[]]⟩, ⟨1, [[7]]⟩]).1.getD j none = some bl) :=
  ⟨rfl, by norm_num, rfl,
   C8_theorem _ [none, none] [⟨0, [[]]⟩, ⟨1, [[7]]⟩] 0 rfl (by norm_num) rfl⟩

/-- C3: on a delay-compensation tick with at least one enabled antenna
(i.e. the phase center is defined), the computed array phase center is
the arithmetic mean of the enabled antennas' positions, and each
enabled antenna's relative position is its position minus that mean. -/
theorem C3_theorem (enabled : List Bool) (pos : List V3) (n : ℕ) (c : V3)
    (hc : phaseCenter enabled pos n = some c) :
    c = meanEnabled enabled pos n ∧
    ∀ x, getB enabled x = true →
      getV pos x - c = getV pos x - meanEnabled enabled pos n := by
  have h := phaseCenter_eq_mean enabled pos n c hc
  refine ⟨h, fun x _ => ?_⟩
  rw [h]

/-- Concrete instantiation of `C3_theorem`: two enabled antennas at
(0,0,0) and (2,0,0) give phase center (1,0,0), their mean. -/
theorem C3_witness :
    phaseCenter [true, true] [((0:ℚ), (0:ℚ), (0:ℚ)), (2, 0, 0)] 2 = some (1, 0, 0) ∧
    ((1, 0, 0) : V3) = meanEnabled [true, true] [((0:ℚ), (0:ℚ), (0:ℚ)), (2, 0, 0)] 2 := by
  have hc : phaseCenter [true, true] [((0:ℚ), (0:ℚ), (0:ℚ)), (2, 0, 0)] 2 =
      some (1, 0, 0) := by
    simp only [phaseCenter, centerScan, List.range_succ, List.range_zero,
      List.foldl_nil, List.foldl_cons, List.nil_append, List.cons_append,
      centerStep, getB, getV, List.getD]
    norm_num [divQ, Prod.ext_iff]
  exact ⟨hc, (C3_theorem [true, true] [((0:ℚ), (0:ℚ), (0:ℚ)), (2, 0, 0)] 2
    (1, 0, 0) hc).1⟩

theorem delayCompTick_cmds_ne_nil (cs : XCConsts) (enabled : List Bool)
    (pos : List V3) (dir : V3) (delays : List ℚ) (r : DelayTickResult) (c : V3)
    (hc : phaseCenter enabled pos cs.nlines = some c)
    (hr : delayCompTick cs enabled pos dir delays = some r) :
    r.cmds ≠ [] := by
  obtain ⟨-, hcmds, -⟩ := delayCompTick_unfold cs enabled pos dir delays c r hc hr
  obtain ⟨t, ht⟩ := pairFold_cmds_extends cs enabled pos dir r.farest
    (pairList cs.nlines) (delays.set r.farest 0,
      [XCmd.auto r.farest 0, XCmd.cross r.farest 0])
  rw [hcmds, ht]
  simp

/-- C2 (amended): delay compensation is gated on the Integrating state.
A ready packet processed while `InIntegration` is false issues no
channel commands and leaves the delays and correlation buffers
unchanged (only the statistics totals advance); a finalize packet
(`InIntegration` true, time expired) also issues no channel commands
and leaves the delays unchanged (it serializes and resets the buffers
and clears the flag); the delay computation runs exactly on ready
packets with `InIntegration` true and time still remaining. -/
theorem C2_theorem (cs : XCConsts) (enabled : List Bool) (pos : List V3)
    (inp : TickIn) (s : XCState) :
    (s.inIntegration = false →
      Callback_step cs enabled pos inp s =
        some (applyTotals cs enabled s inp.pkt, ⟨[], none, none⟩) ∧
      (applyTotals cs enabled s inp.pkt).delays = s.delays ∧
      (applyTotals cs enabled s inp.pkt).autocorrelations_str =
        s.autocorrelations_str ∧
      (applyTotals cs enabled s inp.pkt).crosscorrelations_str =
        s.crosscorrelations_str ∧
      (applyTotals cs enabled s inp.pkt).inIntegration = false) ∧
    (s.inIntegration = true → CalcTimeLeft s inp.now ≤ 0 →
      ∃ s' out, Callback_step cs enabled pos inp s = some (s', out) ∧
        out.cmds = [] ∧ s'.delays = s.delays ∧ s'.inIntegration = false) ∧
    (∀ r, s.inIntegration = true → 0 < CalcTimeLeft s inp.now →
      delayCompTick cs enabled pos inp.dir s.delays = some r →
      ∃ s', Callback_step cs enabled pos inp s = some (s', ⟨r.cmds, none, none⟩) ∧
        s'.delays = r.delays) := by
  refine ⟨?_, ?_, ?_⟩
  · intro h
    refine ⟨Callback_step_idle cs enabled pos inp s h, rfl, rfl, rfl, ?_⟩
    show s.inIntegration = false
    exact h
  · intro hInt ht
    unfold Callback_step
    rw [hInt, if_pos rfl, if_pos ht]
    exact ⟨_, _, rfl, rfl, rfl, rfl⟩
  · intro r hInt ht hd
    exact ⟨_, Callback_step_accum cs enabled pos inp s r hInt ht hd, rfl⟩

/-- The original C2 claim is false on the code: on a ready packet with
`InIntegration` false, the loop body issues no channel command and the
delays stay untouched, while the same inputs with `InIntegration` true
do produce delay commands — compensation is gated on the flag. -/
theorem C2_counterexample :
    (Callback_step cs2 en2 pos2 ⟨1, dirX, pkt2⟩ sIdle2 =
      some (applyTotals cs2 en2 sIdle2 pkt2, ⟨[], none, none⟩) ∧
     (applyTotals cs2 en2 sIdle2 pkt2).delays = sIdle2.delays) ∧
    (∃ s' out, Callback_step cs2 en2 pos2 ⟨1, dirX, pkt2⟩ sInt2 = some (s', out) ∧
      out.cmds ≠ []) := by
  constructor
  · exact ⟨Callback_step_idle cs2 en2 pos2 ⟨1, dirX, pkt2⟩ sIdle2 rfl, rfl⟩
  · have hc : phaseCenter en2 pos2 cs2.nlines = some (1, 0, 0) := by
      simp only [cs2, en2, pos2, phaseCenter, centerScan, List.range_succ,
        List.range_zero, List.foldl_nil, List.foldl_cons, List.nil_append,
        List.cons_append, centerStep, getB, getV, List.getD]
      norm_num [divQ, Prod.ext_iff]
    obtain ⟨r, hr⟩ := delayCompTick_isSome cs2 en2 pos2 dirX sInt2.delays (1, 0, 0) hc
    have ht : (0:ℚ) < CalcTimeLeft sInt2 1 := by
      simp only [CalcTimeLeft, sInt2]
      norm_num
    have hs' := Callback_step_accum cs2 en2 pos2 ⟨1, dirX, pkt2⟩ sInt2 r rfl ht hr
    exact ⟨_, ⟨r.cmds, none, none⟩, hs',
      delayCompTick_cmds_ne_nil cs2 en2 pos2 dirX sInt2.delays r (1, 0, 0) hc hr⟩

/-- Concrete instantiation of `C2_theorem`: the idle 2-line state gives
no commands with delays and buffers unchanged, and the same state with
the flag set but time expired (a finalize packet at `now = 9`) also
gives no commands with delays unchanged. -/
theorem C2_witness :
    sIdle2.inIntegration = false ∧
    (Callback_step cs2 en2 pos2 ⟨1, dirX, pkt2⟩ sIdle2 =
      some (applyTotals cs2 en2 sIdle2 pkt2, ⟨[], none, none⟩) ∧
     (applyTotals cs2 en2 sIdle2 pkt2).delays = sIdle2.delays ∧
     (applyTotals cs2 en2 sIdle2 pkt2).autocorrelations_str =
       sIdle2.autocorrelations_str ∧
     (applyTotals cs2 en2 sIdle2 pkt2).crosscorrelations_str =
       sIdle2.crosscorrelations_str ∧
     (applyTotals cs2 en2 sIdle2 pkt2).inIntegration = false) ∧
    (sInt2.inIntegration = true ∧ CalcTimeLeft sInt2 9 ≤ 0 ∧
     ∃ s' out, Callback_step cs2 en2 pos2 ⟨9, dirX, pkt2⟩ sInt2 = some (s', out) ∧
       out.cmds = [] ∧ s'.delays = sInt2.delays ∧ s'.inIntegration = false) :=
  ⟨rfl, (C2_theorem cs2 en2 pos2 ⟨1, dirX, pkt2⟩ sIdle2).1 rfl,
   rfl, by norm_num [CalcTimeLeft, sInt2],
   (C2_theorem cs2 en2 pos2 ⟨9, dirX, pkt2⟩ sInt2).2.1 rfl
     (by norm_num [CalcTimeLeft, sInt2])⟩

/-- C7 exposes a code bug: the claim (and spec §7(d)) requires the
degenerate cases not to crash and to be no-ops, but the code, run on its
failing inputs, (a) with zero enabled lines dereferences
`lineLocationNP[-1]` (`first` stays -1; modelled as `none`) before any
guard, and (b) with a single enabled line still zeroes the selected
channel's delay value and issues `ahp_xc_set_channel_auto`/`_cross`
commands — not a no-op. -/
theorem C7_theorem :
    delayCompTick cs2 [false, false] pos2 dirX [5, 5] = none ∧
    delayCompTick ⟨1, 4, 2, 1, 2, 2⟩ [true] [((0:ℚ), (0:ℚ), (0:ℚ))] dirX [5] =
      some ⟨[0], [XCmd.auto 0 0, XCmd.cross 0 0], 0⟩ ∧
    ([(0:ℚ)] ≠ [(5:ℚ)]) ∧
    (([XCmd.auto 0 0, XCmd.cross 0 0] : List XCmd) ≠ []) := by
  refine ⟨?_, ?_, by norm_num, by simp⟩
  · norm_num [delayCompTick, phaseCenter, centerScan, cs2, pos2, List.range_succ,
      centerStep, getB, List.getD]
  · norm_num [delayCompTick, phaseCenter, centerScan, selectFarest, pairList,
      List.range_succ, centerStep, farestStep, getB, getV, List.getD, lineDelayNum,
      lineNormSq, baseline_delay, dot, normSq, ratioGtB, divQ, dirX, pairAssignStep,
      clampClocks, delayClocks, Prod.ext_iff]

/-- C4 (amended): for a correlator with `nlines` hardware lines (lag
sizes above 1), there are exactly `nlines` autocorrelation buffers and
`nlines*(nlines-1)/2` crosscorrelation buffers — regardless of which
antennas are enabled — and after `K` accumulation ticks from freshly
allocated buffers every buffer's height is `K + 1`: `K` data rows plus
the pre-allocated next-write row. -/
theorem C4_theorem (cs : XCConsts) (pkts : ℕ → XCPacket) (K : ℕ)
    (hgA : 0 < cs.nlines ∧ 1 < cs.lagAuto)
    (hgC : 0 < nbaselines cs ∧ 1 < cs.lagCross) :
    (iterAccum cs pkts K).1.length = cs.nlines ∧
    (iterAccum cs pkts K).2.length = nbaselines cs ∧
    (∀ b ∈ (iterAccum cs pkts K).1, b.rows.length = K + 1) ∧
    (∀ b ∈ (iterAccum cs pkts K).2, b.rows.length = K + 1) := by
  induction K with
  | zero =>
    refine ⟨List.length_replicate _ _, List.length_replicate _ _, ?_, ?_⟩
    · intro b hb
      rw [List.eq_of_mem_replicate hb]
      rfl
    · intro b hb
      rw [List.eq_of_mem_replicate hb]
      rfl
  | succ K ih =>
    obtain ⟨hlA, hlC, hhA, hhC⟩ := ih
    refine ⟨?_, ?_, ?_, ?_⟩
    · show (accumAuto cs (iterAccum cs pkts K).1 (pkts K)).length = cs.nlines
      rw [accumAuto_length, hlA]
    · show (accumCross cs (iterAccum cs pkts K).2 (pkts K)).length = nbaselines cs
      rw [accumCross_length, hlC]
    · intro b hb
      obtain ⟨b0, row, hb0, rfl⟩ := accumAuto_mem cs _ _ hgA b hb
      have h0 := hhA b0 hb0
      rw [appendRow_rows_length b0 row (by
        intro hnil
        rw [hnil] at h0
        exact Nat.succ_ne_zero K h0.symm), h0]
    · intro b hb
      obtain ⟨b0, row, hb0, rfl⟩ := accumCross_mem cs _ _ hgC b hb
      have h0 := hhC b0 hb0
      rw [appendRow_rows_length b0 row (by
        intro hnil
        rw [hnil] at h0
        exact Nat.succ_ne_zero K h0.symm), h0]

/-- The original C4 claim is false on the code: with 2 hardware lines of
which only one is enabled (N = 1), one accumulation tick still leaves 2
autocorrelation buffers (not N = 1), and each has height 2 (not K = 1). -/
theorem C4_counterexample :
    countEnabled [true, false] 2 = 1 ∧
    (iterAccum cs4 (fun _ => pkt4) 1).1.length = 2 ∧
    ((iterAccum cs4 (fun _ => pkt4) 1).1.map (fun b => b.rows.length)) = [2, 2] ∧
    ¬((iterAccum cs4 (fun _ => pkt4) 1).1.length = 1) ∧
    ¬(∀ b ∈ (iterAccum cs4 (fun _ => pkt4) 1).1, b.rows.length = 1) := by
  refine ⟨by decide, by decide, by decide, by decide, by decide⟩

/-- Concrete instantiation of `C4_theorem`: 2 lines, 1 baseline, two
ticks give heights 3 everywhere. -/
theorem C4_witness :
    (0 < cs4.nlines ∧ 1 < cs4.lagAuto) ∧
    (0 < nbaselines cs4 ∧ 1 < cs4.lagCross) ∧
    ((iterAccum cs4 (fun _ => pkt4) 2).1.length = cs4.nlines ∧
     (iterAccum cs4 (fun _ => pkt4) 2).2.length = nbaselines cs4 ∧
     (∀ b ∈ (iterAccum cs4 (fun _ => pkt4) 2).1, b.rows.length = 2 + 1) ∧
     (∀ b ∈ (iterAccum cs4 (fun _ => pkt4) 2).2, b.rows.length = 2 + 1)) :=
  ⟨by decide, by decide,
   C4_theorem cs4 (fun _ => pkt4) 2 (by decide) (by decide)⟩

/-- C5 (amended): on each accumulation tick, a row is appended to the
buffer of EVERY hardware line and EVERY baseline — the append loops are
gated only by the global guards (`nlines`/`nbaselines` positive, lag
size above 1) and never consult the per-line enable flags. -/
theorem C5_theorem (cs : XCConsts) (bufsA bufsC : List DspStream) (pkt : XCPacket)
    (hgA : 0 < cs.nlines ∧ 1 < cs.lagAuto)
    (hgC : 0 < nbaselines cs ∧ 1 < cs.lagCross) :
    (∀ x, x < bufsA.length →
      (accumAuto cs bufsA pkt).getD x (dsp_stream_init 0) =
        appendRow (bufsA.getD x (dsp_stream_init 0))
          (magRow (pkt.autocorrelations.getD x []))) ∧
    (∀ x, x < bufsC.length →
      (accumCross cs bufsC pkt).getD x (dsp_stream_init 0) =
        appendRow (bufsC.getD x (dsp_stream_init 0))
          (magRow (pkt.crosscorrelations.getD x []))) := by
  constructor
  · intro x hx
    exact accumAuto_getD cs bufsA pkt x hgA hx
  · intro x hx
    exact accumCross_getD cs bufsC pkt x hgC hx

/-- The original C5 claim is false on the code: line 1 is disabled, yet
one accumulation pass still appends a row to its buffer (height 1 → 2);
disabled antennas' buffers do not stay unchanged. -/
theorem C5_counterexample :
    getB [true, false] 1 = false ∧
    ((accumAuto cs4 [dsp_stream_init 3, dsp_stream_init 3] pkt4).getD 1
        (dsp_stream_init 0)).rows.length = 2 ∧
    (accumAuto cs4 [dsp_stream_init 3, dsp_stream_init 3] pkt4).getD 1
        (dsp_stream_init 0) ≠ dsp_stream_init 3 := by
  refine ⟨by decide, by decide, by decide⟩

/-- Concrete instantiation of `C5_theorem` on fresh width-3 buffers. -/
theorem C5_witness :
    (0 < cs4.nlines ∧ 1 < cs4.lagAuto) ∧
    (0 < nbaselines cs4 ∧ 1 < cs4.lagCross) ∧
    ((∀ x, x < ([dsp_stream_init 3, dsp_stream_init 3] : List DspStream).length →
      (accumAuto cs4 [dsp_stream_init 3, dsp_stream_init 3] pkt4).getD x
          (dsp_stream_init 0) =
        appendRow (([dsp_stream_init 3, dsp_stream_init 3] : List DspStream).getD x
            (dsp_stream_init 0))
          (magRow (pkt4.autocorrelations.getD x []))) ∧
    (∀ x, x < ([dsp_stream_init 3] : List DspStream).length →
      (accumCross cs4 [dsp_stream_init 3] pkt4).getD x (dsp_stream_init 0) =
        appendRow (([dsp_stream_init 3] : List DspStream).getD x (dsp_stream_init 0))
          (magRow (pkt4.crosscorrelations.getD x [])))) :=
  ⟨by decide, by decide,
   C5_theorem cs4 [dsp_stream_init 3, dsp_stream_init 3] [dsp_stream_init 3] pkt4
     (by decide) (by decide)⟩

theorem phaseCenter_en2_eval :
    phaseCenter en2 pos2 cs2.nlines = some (1, 0, 0) := by
  simp only [cs2, en2, pos2, phaseCenter, centerScan, List.range_succ,
    List.range_zero, List.foldl_nil, List.foldl_cons, List.nil_append,
    List.cons_append, centerStep, getB, getV, List.getD]
  norm_num [divQ, Prod.ext_iff]

theorem delayCompTick_cs2_eval :
    delayCompTick cs2 en2 pos2 dirX [9, 9] =
      some ⟨[2, 0], [XCmd.auto 1 0, XCmd.cross 1 0, XCmd.auto 0 0, XCmd.cross 0 3],
        1⟩ := by
  rw [delayCompTick, phaseCenter_en2_eval]
  norm_num [selectFarest, pairList, List.range_succ, farestStep, getB, getV,
    List.getD, lineDelayNum, lineNormSq, baseline_delay, dot, normSq, ratioGtB,
    dirX, pairAssignStep, clampClocks, delayClocks, pairDelay, cs2, en2, pos2,
    Prod.ext_iff]

theorem phaseCenter_en3_eval :
    phaseCenter en3 pos3 cs3.nlines = some (1, 0, 0) := by
  simp only [cs3, en3, pos3, phaseCenter, centerScan, List.range_succ,
    List.range_zero, List.foldl_nil, List.foldl_cons, List.nil_append,
    List.cons_append, centerStep, getB, getV, List.getD]
  norm_num [divQ, Prod.ext_iff]

theorem delayCompTick_cs3_eval :
    delayCompTick cs3 en3 pos3 dirZ [5, 5, 5] =
      some ⟨[0, 5, 5], [XCmd.auto 0 0, XCmd.cross 0 0], 0⟩ := by
  rw [delayCompTick, phaseCenter_en3_eval]
  norm_num [selectFarest, pairList, List.range_succ, farestStep, getB, getV,
    List.getD, lineDelayNum, lineNormSq, baseline_delay, dot, normSq, ratioGtB,
    dirZ, pairAssignStep, clampClocks, delayClocks, pairDelay, cs3, en3, pos3,
    Prod.ext_iff]

/-- C9 (amended): on a delay-compensation tick on which at least one
enabled antenna has a strictly positive delay-to-distance ratio, the
selected reference is an enabled antenna and its ratio
`delay(direction)/|position - center|` is maximal among the enabled
antennas (otherwise `farest` keeps its initial value 0, which may name a
disabled antenna). -/
theorem C9_theorem (cs : XCConsts) (enabled : List Bool) (pos : List V3) (dir : V3)
    (delays : List ℚ) (c : V3) (r : DelayTickResult)
    (hc : phaseCenter enabled pos cs.nlines = some c)
    (hr : delayCompTick cs enabled pos dir delays = some r)
    (hpos : ∃ x, x < cs.nlines ∧ getB enabled x = true ∧
      0 < ratioVal (lineDelayNum pos c dir x) (lineNormSq pos c x)) :
    getB enabled r.farest = true ∧ r.farest < cs.nlines ∧
    ∀ y, y < cs.nlines → getB enabled y = true →
      ratioVal (lineDelayNum pos c dir y) (lineNormSq pos c y) ≤
        ratioVal (lineDelayNum pos c dir r.farest) (lineNormSq pos c r.farest) := by
  obtain ⟨hfar, -, -⟩ := delayCompTick_unfold cs enabled pos dir delays c r hc hr
  obtain ⟨hdisj, hq, hv, hmax⟩ := selectFarest_spec enabled pos c dir cs.nlines
  obtain ⟨x, hx, hxen, hxpos⟩ := hpos
  have hposval : 0 < ratioVal (selectFarest enabled pos c dir cs.nlines).dmax
      (selectFarest enabled pos c dir cs.nlines).qmax :=
    lt_of_lt_of_le hxpos (hmax x hx hxen)
  rcases hdisj with h0 | ⟨hflt, hfen, hd, hq2, -⟩
  · rw [h0] at hposval
    have : ratioVal (FAcc.mk 0 0 1).dmax (FAcc.mk 0 0 1).qmax = 0 := ratioVal_zero_num 1
    rw [this] at hposval
    exact absurd hposval (lt_irrefl 0)
  · rw [hfar]
    refine ⟨hfen, hflt, ?_⟩
    intro y hy hyen
    have h := hmax y hy hyen
    rw [hd, hq2] at h
    exact h

/-- The original C9 claim is false on the code: with antennas 1 and 2
enabled (antenna 0 disabled) and a zenith direction perpendicular to the
array, every enabled ratio is 0, `delay_max` never updates, and the
selected reference stays the initial index 0 — a disabled antenna. -/
theorem C9_counterexample :
    delayCompTick cs3 en3 pos3 dirZ [5, 5, 5] =
      some ⟨[0, 5, 5], [XCmd.auto 0 0, XCmd.cross 0 0], 0⟩ ∧
    getB en3 0 = false ∧
    countEnabled en3 3 = 2 :=
  ⟨delayCompTick_cs3_eval, by decide, by decide⟩

/-- Concrete instantiation of `C9_theorem`: two enabled antennas, the
direction along the baseline; antenna 1 has ratio 1 > 0 and is selected. -/
theorem C9_witness :
    phaseCenter en2 pos2 cs2.nlines = some (1, 0, 0) ∧
    delayCompTick cs2 en2 pos2 dirX [9, 9] =
      some ⟨[2, 0], [XCmd.auto 1 0, XCmd.cross 1 0, XCmd.auto 0 0, XCmd.cross 0 3],
        1⟩ ∧
    (∃ x, x < cs2.nlines ∧ getB en2 x = true ∧
      0 < ratioVal (lineDelayNum pos2 (1, 0, 0) dirX x)
        (lineNormSq pos2 (1, 0, 0) x)) ∧
    (getB en2 (DelayTickResult.mk [2, 0]
        [XCmd.auto 1 0, XCmd.cross 1 0, XCmd.auto 0 0, XCmd.cross 0 3] 1).farest
      = true ∧
     (DelayTickResult.mk [2, 0]
        [XCmd.auto 1 0, XCmd.cross 1 0, XCmd.auto 0 0, XCmd.cross 0 3] 1).farest
       < cs2.nlines ∧
     ∀ y, y < cs2.nlines → getB en2 y = true →
       ratioVal (lineDelayNum pos2 (1, 0, 0) dirX y) (lineNormSq pos2 (1, 0, 0) y) ≤
         ratioVal (lineDelayNum pos2 (1, 0, 0) dirX
             (DelayTickResult.mk [2, 0]
               [XCmd.auto 1 0, XCmd.cross 1 0, XCmd.auto 0 0, XCmd.cross 0 3]
               1).farest)
           (lineNormSq pos2 (1, 0, 0)
             (DelayTickResult.mk [2, 0]
               [XCmd.auto 1 0, XCmd.cross 1 0, XCmd.auto 0 0, XCmd.cross 0 3]
               1).farest)) := by
  have hpos1 : 0 < ratioVal (lineDelayNum pos2 (1, 0, 0) dirX 1)
      (lineNormSq pos2 (1, 0, 0) 1) := by
    have hnum : lineDelayNum pos2 (1, 0, 0) dirX 1 = 1 := by
      norm_num [lineDelayNum, baseline_delay, dot, getV, List.getD, pos2, dirX]
    have hnsq : lineNormSq pos2 (1, 0, 0) 1 = 1 := by
      norm_num [lineNormSq, normSq, dot, getV, List.getD, pos2]
    rw [hnum, hnsq]
    exact ratioVal_pos_aux 1 1 one_pos one_pos
  refine ⟨phaseCenter_en2_eval, delayCompTick_cs2_eval,
    ⟨1, by norm_num [cs2], rfl, hpos1⟩, ?_⟩
  exact C9_theorem cs2 en2 pos2 dirX [9, 9] (1, 0, 0) _ phaseCenter_en2_eval
    delayCompTick_cs2_eval ⟨1, by norm_num [cs2], rfl, hpos1⟩

/-- C1 (amended): on a delay-compensation tick on which the selected
reference antenna is enabled, the reference's cross channel is set to
tick 0, and every other enabled antenna receives a cross-channel command
whose tick count is its reference-baseline delay times
clock_frequency/speed_of_light, truncated and clamped into
[0, delaysize-1]; every issued cross tick count lies in that range
(several channels may receive 0). -/
theorem C1_theorem (cs : XCConsts) (enabled : List Bool) (pos : List V3) (dir : V3)
    (delays : List ℚ) (c : V3) (r : DelayTickResult)
    (hlen : enabled.length = cs.nlines)
    (hds : 1 ≤ cs.delaysize)
    (hc : phaseCenter enabled pos cs.nlines = some c)
    (hr : delayCompTick cs enabled pos dir delays = some r)
    (hfen : getB enabled r.farest = true) :
    XCmd.cross r.farest 0 ∈ r.cmds ∧
    (∀ x, getB enabled x = true → x ≠ r.farest →
      XCmd.cross x (clampClocks cs (delayClocks cs (pairDelay pos dir x r.farest)))
        ∈ r.cmds) ∧
    (∀ ch t, XCmd.cross ch t ∈ r.cmds → t ≤ cs.delaysize - 1) := by
  obtain ⟨-, hcmds, -⟩ := delayCompTick_unfold cs enabled pos dir delays c r hc hr
  have hflt : r.farest < cs.nlines := hlen ▸ getB_true_lt enabled r.farest hfen
  refine ⟨?_, ?_, ?_⟩
  · rw [hcmds]
    apply pairFold_mem_cmds
    simp
  · intro x hx hne
    have hxlt : x < cs.nlines := hlen ▸ getB_true_lt enabled x hx
    rw [hcmds]
    rcases lt_or_gt_of_ne hne with hlt | hgt
    · have hp : ((x, r.farest) : ℕ × ℕ) ∈ pairList cs.nlines :=
        (pairList_mem cs.nlines (x, r.farest)).2 ⟨hlt, hflt⟩
      exact pairFold_covers_y cs enabled pos dir r.farest (pairList cs.nlines) _
        (x, r.farest) hp hx hfen rfl hne
    · rw [pairDelay_comm pos dir x r.farest]
      have hp : ((r.farest, x) : ℕ × ℕ) ∈ pairList cs.nlines :=
        (pairList_mem cs.nlines (r.farest, x)).2 ⟨hgt, hxlt⟩
      exact pairFold_covers_x cs enabled pos dir r.farest (pairList cs.nlines) _
        (r.farest, x) hp hfen hx rfl hne
  · rw [hcmds]
    apply pairFold_bounded cs enabled pos dir r.farest (pairList cs.nlines) _ hds
    intro ch t hmem
    simp only [List.mem_cons, List.not_mem_nil, or_false] at hmem
    rcases hmem with h | h
    · exact absurd h (by simp)
    · rw [XCmd.cross.injEq] at h
      rw [h.2]
      omega

/-- The original C1 claim is false on the code: with 2 enabled antennas
(0 disabled, 1 and 2 enabled) and a zenith direction, the reference
defaults to the disabled antenna 0, and enabled antenna 1 — not the
reference — receives NO cross-channel tick assignment at all. -/
theorem C1_counterexample :
    countEnabled en3 3 = 2 ∧
    delayCompTick cs3 en3 pos3 dirZ [5, 5, 5] =
      some ⟨[0, 5, 5], [XCmd.auto 0 0, XCmd.cross 0 0], 0⟩ ∧
    getB en3 1 = true ∧
    (([XCmd.auto 0 0, XCmd.cross 0 0] : List XCmd).any (isCrossFor 1)) = false :=
  ⟨by decide, delayCompTick_cs3_eval, by decide, by decide⟩

/-- Concrete instantiation of `C1_theorem` on the 2-antenna tick: the
enabled reference (antenna 1) gets cross tick 0, antenna 0 gets the
clamped tick 3, and all issued ticks lie in [0, 3]. -/
theorem C1_witness :
    (en2.length = cs2.nlines ∧ 1 ≤ cs2.delaysize ∧
     getB en2 (DelayTickResult.mk [2, 0]
        [XCmd.auto 1 0, XCmd.cross 1 0, XCmd.auto 0 0, XCmd.cross 0 3] 1).farest
       = true) ∧
    (XCmd.cross (DelayTickResult.mk [2, 0]
        [XCmd.auto 1 0, XCmd.cross 1 0, XCmd.auto 0 0, XCmd.cross 0 3] 1).farest 0
      ∈ (DelayTickResult.mk [2, 0]
        [XCmd.auto 1 0, XCmd.cross 1 0, XCmd.auto 0 0, XCmd.cross 0 3] 1).cmds ∧
     (∀ x, getB en2 x = true →
        x ≠ (DelayTickResult.mk [2, 0]
          [XCmd.auto 1 0, XCmd.cross 1 0, XCmd.auto 0 0, XCmd.cross 0 3] 1).farest →
        XCmd.cross x (clampClocks cs2 (delayClocks cs2 (pairDelay pos2 dirX x
            (DelayTickResult.mk [2, 0]
              [XCmd.auto 1 0, XCmd.cross 1 0, XCmd.auto 0 0, XCmd.cross 0 3]
              1).farest)))
          ∈ (DelayTickResult.mk [2, 0]
            [XCmd.auto 1 0, XCmd.cross 1 0, XCmd.auto 0 0, XCmd.cross 0 3] 1).cmds) ∧
     (∀ ch t, XCmd.cross ch t ∈ (DelayTickResult.mk [2, 0]
          [XCmd.auto 1 0, XCmd.cross 1 0, XCmd.auto 0 0, XCmd.cross 0 3] 1).cmds →
        t ≤ cs2.delaysize - 1)) :=
  ⟨⟨rfl, by decide, rfl⟩,
   C1_theorem cs2 en2 pos2 dirX [9, 9] (1, 0, 0) _ rfl (by decide)
     phaseCenter_en2_eval delayCompTick_cs2_eval rfl⟩

theorem getD_mem {α : Type} (l : List α) (x : ℕ) (d : α) (h : x < l.length) :
    l.getD x d ∈ l := by
  rw [List.getD_eq_get l d h]
  exact List.get_mem l x h

/-- Invariant carried through a run of accumulation ticks: the
integration stays active with its request and start time unchanged, the
autocorrelation buffers keep their count, stay nonempty, and each
buffer's data rows extend the data rows it had at the start of the run. -/
theorem accumRun_invariant (cs : XCConsts) (enabled : List Bool) (pos : List V3)
    (now dur : ℚ) (base : List DspStream) (c : V3)
    (hc : phaseCenter enabled pos cs.nlines = some c)
    (hgA : 0 < cs.nlines ∧ 1 < cs.lagAuto) :
    ∀ (l : List TickIn) (s0 : XCState),
      (∀ inp ∈ l, inp.now - now < dur) →
      s0.inIntegration = true → s0.integrationRequest = dur → s0.expStart = now →
      s0.autocorrelations_str.length = base.length →
      (∀ b ∈ s0.autocorrelations_str, b.rows ≠ []) →
      (∀ x, x < base.length → ∃ t,
        (s0.autocorrelations_str.getD x (dsp_stream_init 0)).rows.dropLast =
          (base.getD x (dsp_stream_init 0)).rows.dropLast ++ t) →
      ∃ sk, runSteps cs enabled pos l s0 = some sk ∧
        sk.inIntegration = true ∧ sk.integrationRequest = dur ∧ sk.expStart = now ∧
        sk.autocorrelations_str.length = base.length ∧
        (∀ b ∈ sk.autocorrelations_str, b.rows ≠ []) ∧
        (∀ x, x < base.length → ∃ t,
          (sk.autocorrelations_str.getD x (dsp_stream_init 0)).rows.dropLast =
            (base.getD x (dsp_stream_init 0)).rows.dropLast ++ t) := by
  intro l
  induction l with
  | nil =>
    intro s0 _ h1 h2 h3 h4 h5 h6
    exact ⟨s0, rfl, h1, h2, h3, h4, h5, h6⟩
  | cons inp rest ih =>
    intro s0 hl h1 h2 h3 h4 h5 h6
    obtain ⟨r, hr⟩ := delayCompTick_isSome cs enabled pos inp.dir s0.delays c hc
    have ht : 0 < CalcTimeLeft s0 inp.now := by
      unfold CalcTimeLeft
      rw [h2, h3]
      have := hl inp (List.mem_cons_self inp rest)
      linarith
    have hstep := Callback_step_accum cs enabled pos inp s0 r h1 ht hr
    have hrun : runSteps cs enabled pos (inp :: rest) s0 =
        runSteps cs enabled pos rest (applyTotals cs enabled { s0 with
          delays := r.delays
          autocorrelations_str := accumAuto cs s0.autocorrelations_str inp.pkt
          crosscorrelations_str := accumCross cs s0.crosscorrelations_str inp.pkt }
          inp.pkt) := by
      show (match Callback_step cs enabled pos inp s0 with
        | none => none
        | some (s', _) => runSteps cs enabled pos rest s') = _
      rw [hstep]
    rw [hrun]
    apply ih
    · intro i hi
      exact hl i (List.mem_cons_of_mem inp hi)
    · exact h1
    · exact h2
    · exact h3
    · show (accumAuto cs s0.autocorrelations_str inp.pkt).length = base.length
      rw [accumAuto_length]
      exact h4
    · intro b hb
      obtain ⟨b0, row, hb0, rfl⟩ := accumAuto_mem cs _ _ hgA b hb
      exact appendRow_rows_ne_nil b0 row
    · intro x hxlt
      have hx0 : x < s0.autocorrelations_str.length := by
        rw [h4]
        exact hxlt
      obtain ⟨t, ht6⟩ := h6 x hxlt
      refine ⟨t ++ [magRow (inp.pkt.autocorrelations.getD x [])], ?_⟩
      show ((accumAuto cs s0.autocorrelations_str inp.pkt).getD x
        (dsp_stream_init 0)).rows.dropLast = _
      rw [accumAuto_getD cs _ _ x hgA hx0, appendRow_dropLast, ht6,
        List.append_assoc]

/-- C10: `AbortIntegration` returns true unconditionally and only clears
the integrating flag — no serialization happens and no buffer, delay,
timing or statistics field changes — so the rows accumulated before the
abort stay in the buffers and, after a later `StartIntegration` and any
number of accumulation ticks, the next finalize hands the
autocorrelation buffers, pre-abort data rows included as a prefix, to
the serializer. -/
theorem C10_theorem (cs : XCConsts) (enabled : List Bool) (pos : List V3)
    (s : XCState) (now dur : ℚ) (l : List TickIn) (fin : TickIn) (c : V3)
    (hrows : ∀ b ∈ s.autocorrelations_str, b.rows ≠ [])
    (hc : phaseCenter enabled pos cs.nlines = some c)
    (hl : ∀ inp ∈ l, inp.now - now < dur)
    (hfin : dur ≤ fin.now - now)
    (hgA : 0 < cs.nlines ∧ 1 < cs.lagAuto) :
    (AbortIntegration s).1 = true ∧
    (AbortIntegration s).2.inIntegration = false ∧
    (AbortIntegration s).2.autocorrelations_str = s.autocorrelations_str ∧
    (AbortIntegration s).2.crosscorrelations_str = s.crosscorrelations_str ∧
    (AbortIntegration s).2.delays = s.delays ∧
    (AbortIntegration s).2.integrationRequest = s.integrationRequest ∧
    (AbortIntegration s).2.expStart = s.expStart ∧
    (AbortIntegration s).2.totalcounts = s.totalcounts ∧
    (AbortIntegration s).2.totalcorrelations = s.totalcorrelations ∧
    ∃ sK s' out,
      runSteps cs enabled pos l
        (StartIntegration (AbortIntegration s).2 now dur).2 = some sK ∧
      Callback_step cs enabled pos fin sK = some (s', out) ∧
      out.autoEmitted = some sK.autocorrelations_str ∧
      sK.autocorrelations_str.length = s.autocorrelations_str.length ∧
      (∀ x, x < s.autocorrelations_str.length →
        ∃ t, (sK.autocorrelations_str.getD x (dsp_stream_init 0)).rows =
          (s.autocorrelations_str.getD x (dsp_stream_init 0)).rows.dropLast ++ t) := by
  refine ⟨rfl, rfl, rfl, rfl, rfl, rfl, rfl, rfl, rfl, ?_⟩
  obtain ⟨sK, hsK, hInt, hreq, hstart, hlen, hne, hpre⟩ :=
    accumRun_invariant cs enabled pos now dur s.autocorrelations_str c hc hgA l
      (StartIntegration (AbortIntegration s).2 now dur).2 hl rfl rfl rfl rfl hrows
      (fun x _ => ⟨[], (List.append_nil _).symm⟩)
  have ht : CalcTimeLeft sK fin.now ≤ 0 := by
    unfold CalcTimeLeft
    rw [hreq, hstart]
    linarith
  refine ⟨sK, _, _, hsK, Callback_step_finalize cs enabled pos fin sK hInt ht hgA,
    rfl, hlen, ?_⟩
  intro x hx
  have hx' : x < sK.autocorrelations_str.length := by
    rw [hlen]
    exact hx
  have hbne : (sK.autocorrelations_str.getD x (dsp_stream_init 0)).rows ≠ [] :=
    hne _ (getD_mem _ x _ hx')
  obtain ⟨t, ht'⟩ := hpre x hx
  refine ⟨t ++ [(sK.autocorrelations_str.getD x (dsp_stream_init 0)).rows.getLast
    hbne], ?_⟩
  rw [← List.append_assoc, ← ht', List.dropLast_append_getLast hbne]

theorem phaseCenter_one_eval :
    phaseCenter [true] [((0:ℚ), (0:ℚ), (0:ℚ))] cs1.nlines = some (0, 0, 0) := by
  simp only [cs1, phaseCenter, centerScan, List.range_succ, List.range_zero,
    List.foldl_nil, List.foldl_cons, List.nil_append, List.cons_append,
    centerStep, getB, getV, List.getD]
  norm_num [divQ, Prod.ext_iff]

/-- Concrete instantiation of `C10_theorem`: abort a 1-line integration
holding one data row, restart, run zero further ticks, and finalize: the
emitted buffer still starts with the pre-abort data row. -/
theorem C10_witness :
    (∀ b ∈ sAb.autocorrelations_str, b.rows ≠ []) ∧
    phaseCenter [true] [((0:ℚ), (0:ℚ), (0:ℚ))] cs1.nlines = some (0, 0, 0) ∧
    ((5:ℚ) ≤ 10 - 0) ∧
    (0 < cs1.nlines ∧ 1 < cs1.lagAuto) ∧
    ((AbortIntegration sAb).1 = true ∧
     (AbortIntegration sAb).2.inIntegration = false ∧
     (AbortIntegration sAb).2.autocorrelations_str = sAb.autocorrelations_str ∧
     (AbortIntegration sAb).2.crosscorrelations_str = sAb.crosscorrelations_str ∧
     (AbortIntegration sAb).2.delays = sAb.delays ∧
     (AbortIntegration sAb).2.integrationRequest = sAb.integrationRequest ∧
     (AbortIntegration sAb).2.expStart = sAb.expStart ∧
     (AbortIntegration sAb).2.totalcounts = sAb.totalcounts ∧
     (AbortIntegration sAb).2.totalcorrelations = sAb.totalcorrelations ∧
     ∃ sK s' out,
       runSteps cs1 [true] [((0:ℚ), (0:ℚ), (0:ℚ))] []
         (StartIntegration (AbortIntegration sAb).2 0 5).2 = some sK ∧
       Callback_step cs1 [true] [((0:ℚ), (0:ℚ), (0:ℚ))] ⟨10, dirX, pkt2⟩ sK =
         some (s', out) ∧
       out.autoEmitted = some sK.autocorrelations_str ∧
       sK.autocorrelations_str.length = sAb.autocorrelations_str.length ∧
       (∀ x, x < sAb.autocorrelations_str.length →
         ∃ t, (sK.autocorrelations_str.getD x (dsp_stream_init 0)).rows =
           (sAb.autocorrelations_str.getD x (dsp_stream_init 0)).rows.dropLast
             ++ t)) :=
  ⟨by decide, phaseCenter_one_eval, by norm_num, by decide,
   C10_theorem cs1 [true] [((0:ℚ), (0:ℚ), (0:ℚ))] sAb 0 5 [] ⟨10, dirX, pkt2⟩
     (0, 0, 0) (by decide) phaseCenter_one_eval
     (fun inp hin => absurd hin (List.not_mem_nil inp)) (by norm_num) (by decide)⟩

end AhpXc
